import Mathlib

/-!
Verification of the adaptive hierarchical retrieval engine
(`src/nodes/retriever.py` of the ministry RAG repository).

The Python code is shallowly embedded: scores are rationals, the external
collaborators (vector store, embedding service, `math.log`, `** 0.5`,
Python `hash`) are parameters of an `Env` record, and every in-place
metadata mutation becomes a functional update on a `Doc` value.
-/

namespace MinistryRag

/-- Emptiness of a string, phrased on the character list. -/
def strEmpty (s : String) : Bool := s.data.isEmpty

/-- Python `str.lower()` (faithful on ASCII; identity on Arabic letters,
matching CPython's behaviour on the texts this system processes). -/
def pyLower (s : String) : String := String.mk (s.data.map Char.toLower)

/-- Python `str.strip()`: drop leading/trailing whitespace. -/
def pyStrip (s : String) : String :=
  String.mk (((s.data.dropWhile Char.isWhitespace).reverse.dropWhile
    Char.isWhitespace).reverse)

/-- Python slicing `s[:n]` (by code points). -/
def takeChars (n : Nat) (s : String) : String := String.mk (s.data.take n)

/-- `pat` occurs as a contiguous run inside `hay` (Python `pat in hay`).
The empty pattern occurs everywhere, as in Python. -/
def subOccurs (pat : List Char) : List Char → Bool
  | [] => pat.isEmpty
  | c :: rest => pat.isPrefixOf (c :: rest) || subOccurs pat rest

/-- Python membership test `pat in hay` on strings. -/
def strContains (hay pat : String) : Bool := subOccurs pat.data hay.data

/-- Python `\w` word character for the re module, restricted to the
ASCII + Arabic-script inputs this retriever handles: ASCII alphanumerics,
underscore, and every non-ASCII code point. -/
def pyWordChar (c : Char) : Bool := c.isAlphanum || c = '_' || 0x7F < c.toNat

/-- Python `str.isalnum()` on the same input domain. -/
def pyAlnum (c : Char) : Bool := c.isAlphanum || 0x7F < c.toNat

/-- Fuelled scanner for maximal runs of characters satisfying `p`;
the fuel is always instantiated with the list length, which suffices since
every step consumes at least one character. -/
def charRunsF (p : Char → Bool) : Nat → List Char → List (List Char)
  | 0, _ => []
  | _, [] => []
  | fuel + 1, c :: rest =>
    if p c then
      (c :: rest.takeWhile p) :: charRunsF p fuel (rest.dropWhile p)
    else charRunsF p fuel rest

/-- Maximal runs of characters satisfying `p` (used for `re.findall`). -/
def charRuns (p : Char → Bool) (l : List Char) : List (List Char) :=
  charRunsF p l.length l

/-- `re.findall(r'\b\w+\b', s)`: maximal word-character runs. -/
def wordRuns (s : String) : List String :=
  (charRuns pyWordChar s.data).map List.asString

/-- `re.findall(r'\d+', s)`: maximal digit runs. -/
def digitRuns (s : String) : List String :=
  (charRuns Char.isDigit s.data).map List.asString

/-- Python `str.isdigit()` for our keyword tokens. -/
def pyIsDigitStr (s : String) : Bool := !strEmpty s && s.data.all Char.isDigit

/-- `int(digits)` for a run of decimal digits. -/
def digitsToNat (l : List Char) : Nat :=
  l.foldl (fun acc c => acc * 10 + (c.toNat - '0'.toNat)) 0

/-- One scanning step for `re.findall(r'\b\d+-\d+\b', s)`.  `prevWord` says
whether the previously consumed character was a word character (for the
leading `\b`).  Matches are non-overlapping, scanned left to right, with
greedy digit runs exactly as the regex engine produces them. -/
def scanRefs (fuel : Nat) (prevWord : Bool) (l : List Char) : List String :=
  match fuel with
  | 0 => []
  | fuel + 1 =>
    match l with
    | [] => []
    | c :: rest =>
      if !prevWord && c.isDigit then
        let r1 := (c :: rest).takeWhile Char.isDigit
        let l1 := (c :: rest).dropWhile Char.isDigit
        match l1 with
        | '-' :: l2 =>
          let r2 := l2.takeWhile Char.isDigit
          let l3 := l2.dropWhile Char.isDigit
          let okEnd := match l3 with
            | [] => true
            | d :: _ => !pyWordChar d
          if !r2.isEmpty && okEnd then
            (r1 ++ '-' :: r2).asString :: scanRefs fuel true l3
          else scanRefs fuel (pyWordChar c) rest
        | _ => scanRefs fuel (pyWordChar c) rest
      else scanRefs fuel (pyWordChar c) rest

/-- `re.findall(r'\b\d+-\d+\b', s)` (decision-number-shaped tokens). -/
def specialRefs (s : String) : List String :=
  scanRefs (s.data.length + 1) false s.data

/-- One scanning step for `re.findall(r'\b(20\d{2})\b', s)`. -/
def scanYears (fuel : Nat) (prevWord : Bool) (l : List Char) : List String :=
  match fuel with
  | 0 => []
  | fuel + 1 =>
    match l with
    | [] => []
    | c :: rest =>
      if !prevWord && c = '2' then
        match rest with
        | '0' :: d1 :: d2 :: tl =>
          let okEnd := match tl with
            | [] => true
            | e :: _ => !pyWordChar e
          if d1.isDigit && d2.isDigit && okEnd then
            ['2', '0', d1, d2].asString :: scanYears fuel true tl
          else scanYears fuel true rest
        | _ => scanYears fuel true rest
      else scanYears fuel (pyWordChar c) rest

/-- `re.findall(r'\b(20\d{2})\b', query)` — 4-digit years starting `20`. -/
def yearTokens (s : String) : List String :=
  scanYears (s.data.length + 1) false s.data

/-- De-duplicate preserving first-seen order (the `seen`-set idiom used
throughout the retriever). -/
def dedupKeepOrder (l : List String) : List String :=
  (l.foldl (fun (acc : List String × List String) kw =>
    if acc.2.contains kw then acc else (acc.1 ++ [kw], kw :: acc.2)) ([], [])).1

/-- `max` over a list with a default for the empty case
(Python `max(xs) if xs else d`). -/
def maxListD (l : List ℚ) (d : ℚ) : ℚ :=
  match l with
  | [] => d
  | x :: xs => xs.foldl max x

/-- First index of the minimal element of a score list
(Python `min(range(len(xs)), key=lambda i: xs[i])`). -/
def minIdx (l : List ℚ) : Nat :=
  (l.foldl (fun (acc : Option (ℚ × Nat) × Nat) s =>
      match acc.1 with
      | none => (some (s, acc.2), acc.2 + 1)
      | some (m, mi) => if s < m then (some (s, acc.2), acc.2 + 1) else (some (m, mi), acc.2 + 1))
    (none, 0)).1.elim 0 Prod.snd

/-- An article or appendix dict nested in a document's metadata
(`Article` / `Appendix` of the spec).  `none` models an absent key. -/
structure Sub where
  article_number : Option String
  appendix_number : Option String
  title : Option String
  text : Option String
  is_key_article : Option Bool
  is_key_appendix : Option Bool
  has_table : Option Bool
  importance : Option ℚ
  similarity_score : Option ℚ
  is_high_match : Option Bool
  boost_factor : Option ℚ
  highlighted_snippets : Option (List String)
  deriving DecidableEq, Repr

/-- A fresh sub-structure dict with no keys set. -/
def Sub.mk0 : Sub := ⟨none, none, none, none, none, none, none, none, none, none, none, none⟩

/-- The `articles` / `appendices` metadata slot: absent, a string that fails
`json.loads` (or a non-string non-list value), a JSON string parsing to a
list, or an already-parsed list. -/
inductive SubField where
  | absent
  | malformed (s : String)
  | jsonStr (v : List Sub)
  | lst (v : List Sub)
  deriving DecidableEq, Repr

/-- `json.loads` with the retriever's error handling: a malformed value is
caught, logged and treated as the empty list (retriever.py lines 323-337,
415-429, 998-1003). -/
def parseSub : SubField → List Sub
  | .absent => []
  | .malformed _ => []
  | .jsonStr v => v
  | .lst v => v

/-- Python `'articles' in doc.metadata`. -/
def SubField.present : SubField → Bool
  | .absent => false
  | _ => true

/-- Python truthiness of the raw metadata value: a string is truthy iff
non-empty (any JSON text of a list is non-empty), a list iff non-empty. -/
def SubField.truthy : SubField → Bool
  | .absent => false
  | .malformed s => !strEmpty s
  | .jsonStr _ => true
  | .lst v => !v.isEmpty

/-- The `subsections` metadata slot: absent, unparseable, or a dict holding
optional `articles` / `appendices` lists. -/
inductive SubsField where
  | absent
  | malformed (s : String)
  | dict (arts : Option (List Sub)) (apps : Option (List Sub))
  deriving DecidableEq, Repr

/-- A vector-store document together with the metadata keys the retriever
reads or writes.  Mutation of `doc.metadata` in the source becomes a
functional update here. -/
structure Doc where
  page_content : String
  id : Option String
  articles : SubField
  appendices : SubField
  subsections : SubsField
  matched_articles : Option (List Sub)
  matched_appendices : Option (List Sub)
  decision_number : Option String
  year : Option String
  chunk_type : Option String
  official_bulletin : Option String
  original_score : Option ℚ
  subsection_score : Option ℚ
  precision_score : Option ℚ
  diversity_score : Option ℚ
  metadata_bonus : Option ℚ
  has_best_match : Option Bool
  total_matches : Option Nat
  match_coverage : Option ℚ
  deriving DecidableEq, Repr

/-- A document with only content set (all metadata keys absent). -/
def Doc.mk0 (content : String) : Doc :=
  ⟨content, none, .absent, .absent, .absent, none, none, none, none, none, none,
   none, none, none, none, none, none, none, none⟩

/-- Truthiness of an optional string metadata value. -/
def optTruthy : Option String → Bool
  | none => false
  | some s => !strEmpty s

/-- The metadata filter dict handed to the vector store: a single condition
or a `$and` conjunction (retriever.py lines 846-851). -/
inductive VFilter where
  | single (cond : String × String)
  | conj (conds : List (String × String))
  deriving DecidableEq, Repr

/-- `MetadataFilters` extracted from the query (retriever.py lines 20-26). -/
structure MetadataFilters where
  decision_number : Option String
  year : Option String
  chunk_type : Option String
  official_bulletin : Option String
  deriving DecidableEq, Repr

/-- The retriever's external collaborators, abstracted exactly at the
boundary the spec declares (§6): the vector store, the composition
cosine-of-embeddings (deterministic per text pair), `math.log`, `** 0.5`
and Python's `hash`. -/
structure Env where
  store : String → Nat → Option VFilter → List (Doc × ℚ)
  sim : String → String → ℚ
  logQ : ℚ → ℚ
  sqrtQ : ℚ → ℚ
  pyhash : String → Int

/-- Retrieval configuration (`default_k`, `max_k`, `min_score`;
defaults 5, 10, 0.5 in retriever.py lines 46-48). -/
structure Config where
  default_k : Nat
  max_k : Nat
  min_score : ℚ

/-- The default configuration. -/
def cfgDef : Config := ⟨5, 10, 1/2⟩

/-- The Arabic stop-word set of `_extract_query_keywords`
(retriever.py line 1308). -/
def arabicStopwords : List String :=
  ["من", "في", "على", "و", "أو", "ثم", "أن", "إلى", "عن", "مع",
   "هل", "كم", "متى", "أين", "لماذا"]

/-- Adjacent pairs `(w[i], w[i+1])` of a word list. -/
def adjacentPairs : List String → List (String × String)
  | a :: b :: rest => (a, b) :: adjacentPairs (b :: rest)
  | _ => []

/-- `_extract_query_keywords` (retriever.py lines 1305-1339): stop-word- and
length-filtered word tokens, digit runs, `d+-d+` references, long bigrams,
de-duplicated preserving order. -/
def extractQueryKeywords (query : String) : List String :=
  let queryLower := pyLower query
  let queryWords := wordRuns queryLower
  let kws := queryWords.filter
    (fun w => !arabicStopwords.contains w && 2 < w.length)
  let kws := kws ++ digitRuns query
  let kws := kws ++ specialRefs query
  let phrases := (adjacentPairs queryWords).filterMap
    (fun p => if 3 < p.1.length && 3 < p.2.length then some (p.1 ++ " " ++ p.2) else none)
  dedupKeepOrder (kws ++ phrases)

/-- `_contains_keywords` (retriever.py lines 1341-1348). -/
def containsKeywords (text : String) (keywords : List String) : Bool :=
  if keywords.isEmpty || strEmpty text then false
  else keywords.any (fun kw => strContains (pyLower text) (pyLower kw))

/-- `_calculate_term_frequency` (retriever.py lines 1350-1380): per-keyword
document counts, IDF-like `log(doc_count/count)` weights, max-normalized.
`logQ` models `math.log`. -/
def calcTermFrequency (logQ : ℚ → ℚ) (keywords : List String)
    (documents : List (Doc × ℚ)) : List (String × ℚ) :=
  let kws := dedupKeepOrder keywords
  if documents.length = 0 || kws.isEmpty then kws.map (fun k => (k, (0 : ℚ)))
  else
    let termCounts := kws.map (fun kw =>
      (kw, documents.countP (fun p => strContains (pyLower p.1.page_content) (pyLower kw))))
    let termFreq := termCounts.map (fun p =>
      (p.1, if 0 < p.2 then logQ ((documents.length : ℚ) / (p.2 : ℚ)) else 0))
    let maxFreq := maxListD (termFreq.map Prod.snd) 1
    termFreq.map (fun p => (p.1, if 0 < maxFreq then p.2 / maxFreq else 0))

/-- `_calculate_term_match_boost` (retriever.py lines 1382-1396): sum the
weights of the matching terms, scale by 1/3, cap at 0.5. -/
def calcTermMatchBoost (text : String) (termFreq : List (String × ℚ)) : ℚ :=
  if strEmpty text || termFreq.isEmpty then 0
  else
    let boost := termFreq.foldl
      (fun b p => if strContains (pyLower text) (pyLower p.1) then b + p.2 else b) 0
    min (1/2) (boost / 3)

/-- Character 5-grams of a string (`get_ngrams` in `_calculate_overlap`). -/
def ngrams5 (s : String) : List String :=
  ((List.range (s.data.length + 1 - 5)).map
    (fun i => ((s.data.drop i).take 5).asString))

/-- `_calculate_overlap` (retriever.py lines 1453-1471): Jaccard overlap of
the 5-gram sets of two strings. -/
def calcOverlap (s1 s2 : String) : ℚ :=
  if strEmpty s1 || strEmpty s2 then 0
  else
    let n1 := dedupKeepOrder (ngrams5 s1)
    let n2 := dedupKeepOrder (ngrams5 s2)
    if n1.isEmpty || n2.isEmpty then 0
    else
      let inter := n1.filter n2.contains
      let uni := n1 ++ n2.filter (fun x => !n1.contains x)
      (inter.length : ℚ) / (uni.length : ℚ)

/-- Character at index `i` (safe variant of `text[i]`; every use in the
snippet extractor is within bounds). -/
def charAt (text : List Char) (i : Nat) : Char := text.getD i ' '

/-- The `while start > 0 and text[start].isalnum(): start -= 1` loop of
`_extract_context_snippets`, with fuel `start`. -/
def moveStart (text : List Char) : Nat → Nat → Nat
  | 0, s => s
  | fuel + 1, s => if 0 < s && pyAlnum (charAt text s) then moveStart text fuel (s - 1) else s

/-- The `while end < len(text) - 1 and text[end].isalnum(): end += 1` loop. -/
def moveEnd (text : List Char) : Nat → Nat → Nat
  | 0, e => e
  | fuel + 1, e =>
    if e + 1 < text.length && pyAlnum (charAt text e) then moveEnd text fuel (e + 1) else e

/-- First index `≥ start` where `pat` occurs in `hay`
(Python `hay.find(pat, start)`), `none` for `-1`. -/
def findFrom (hay pat : List Char) (start : Nat) : Option Nat :=
  let rec go (fuel i : Nat) : Option Nat :=
    match fuel with
    | 0 => none
    | fuel + 1 =>
      if hay.length < i then none
      else if pat.isPrefixOf (hay.drop i) then some i
      else go fuel (i + 1)
  go (hay.length + 1 - start) start

/-- The inner `while len(snippets) < max_snippets` loop of
`_extract_context_snippets` for one keyword. -/
def snippetLoop (text textLower kw : List Char) (maxSn ctx : Nat) :
    Nat → Nat → List String → List String
  | 0, _, acc => acc
  | fuel + 1, startIdx, acc =>
    if acc.length < maxSn then
      match findFrom textLower kw startIdx with
      | none => acc
      | some pos =>
        let start0 := pos - ctx
        let end0 := min text.length (pos + kw.length + ctx)
        let start := moveStart text start0 start0
        let endP := moveEnd text text.length end0
        let snippet := ((text.drop start).take (endP - start)).asString
        let snippet := (if 0 < start then "..." ++ snippet else snippet)
        let snippet := (if endP < text.length then snippet ++ "..." else snippet)
        let isDup := acc.any (fun ex => 7/10 < calcOverlap ex snippet)
        let acc := if isDup then acc else acc ++ [snippet]
        snippetLoop text textLower kw maxSn ctx fuel (pos + kw.length) acc
    else acc

/-- `_extract_context_snippets` (retriever.py lines 1398-1451) with the
default `max_snippets = 3`, `context_size = 60`. -/
def extractContextSnippets (text : String) (keywords : List String) : List String :=
  if strEmpty text || keywords.isEmpty then []
  else
    let tl := (pyLower text).data
    let td := text.data
    (keywords.foldl (fun acc kw =>
      if kw.length < 3 then acc
      else snippetLoop td tl (pyLower kw).data 3 60 (td.length + 1) 0 acc) []).take 3

/-- `_calculate_metadata_match_bonus` (retriever.py lines 1473-1503). -/
def calcMetadataMatchBonus (d : Doc) (query : String) (keywords : List String) : ℚ :=
  let b : ℚ := 0
  let b := if optTruthy d.decision_number &&
      keywords.any (fun kw => strContains (d.decision_number.getD "") kw)
    then b + 1/5 else b
  let b := if optTruthy d.year &&
      (let qYears := yearTokens query
       !qYears.isEmpty && qYears.contains (d.year.getD ""))
    then b + 3/20 else b
  let b := if optTruthy d.chunk_type &&
      keywords.any (fun kw => strContains (pyLower kw) (pyLower (d.chunk_type.getD "")))
    then b + 1/10 else b
  let b := if optTruthy d.official_bulletin &&
      keywords.any (fun kw => strContains (pyLower (d.official_bulletin.getD "")) (pyLower kw))
    then b + 1/10 else b
  min (2/5) b

/-- Stable descending insertion by a rational key: the unique stable sort,
hence extensionally equal to Python's `list.sort(key=…, reverse=True)`. -/
def insertDescBy {α : Type} (key : α → ℚ) (x : α) : List α → List α
  | [] => [x]
  | y :: ys => if key x < key y then y :: insertDescBy key x ys else x :: y :: ys

/-- Stable descending sort by a rational key (Python `sorted(…, reverse=True)`). -/
def sortDescBy {α : Type} (key : α → ℚ) : List α → List α
  | [] => []
  | x :: xs => insertDescBy key x (sortDescBy key xs)

/-- `_extract_numeric_part` (retriever.py lines 1185-1195): the first digit
run as a number, `none` for Python's `float('inf')` fallback. -/
def extractNumericPart (s : String) : Option Nat :=
  match digitRuns s with
  | [] => none
  | r :: _ => some (digitsToNat r.data)

/-- Strict order on sort keys with `none` as `float('inf')`. -/
def numLt : Option Nat → Option Nat → Bool
  | some a, some b => decide (a < b)
  | some _, none => true
  | none, _ => false

/-- Stable ascending insertion by `extractNumericPart` of a chosen field. -/
def insertAscNum (key : Sub → Option Nat) (x : Sub) : List Sub → List Sub
  | [] => [x]
  | y :: ys => if numLt (key y) (key x) then y :: insertAscNum key x ys else x :: y :: ys

/-- Stable ascending sort by numeric key (Python `sorted(…, key=…)`). -/
def sortAscNum (key : Sub → Option Nat) : List Sub → List Sub
  | [] => []
  | x :: xs => insertAscNum key x (sortAscNum key xs)

/-- The combined text of an article
(`f"{article_number} {title} {text}"`, retriever.py line 342/445). -/
def articleText (a : Sub) : String :=
  (a.article_number.getD "") ++ " " ++ (a.title.getD "") ++ " " ++ (a.text.getD "")

/-- The combined text of an appendix
(`f"{title} {appendix_number} {text}"`, retriever.py line 354/495). -/
def appendixText (p : Sub) : String :=
  (p.title.getD "") ++ " " ++ (p.appendix_number.getD "") ++ " " ++ (p.text.getD "")

/-- First pass of `_search_articles_and_appendices` (retriever.py lines
309-365): gather the cosine similarity of every keyword-surviving
sub-structure of every candidate above the `0.8 × min_score` floor. -/
def pass1SubScores (env : Env) (cfg : Config) (query : String) (kws : List String)
    (results : List (Doc × ℚ)) : List ℚ :=
  results.foldl (fun acc p =>
    if p.2 < cfg.min_score * (4/5) then acc
    else
      let aScores := (parseSub p.1.articles).filterMap (fun a =>
        if containsKeywords (articleText a) kws then some (env.sim query (articleText a))
        else none)
      let pScores := (parseSub p.1.appendices).filterMap (fun q =>
        if containsKeywords (appendixText q) kws then some (env.sim query (appendixText q))
        else none)
      acc ++ aScores ++ pScores) []

/-- Adaptive threshold computation (retriever.py lines 367-386): mean,
descending sort, top-20% entry, standard deviation, then
`max(min_score, min(avg + 0.5·std, (avg + top20)/2, 0.75))`;
`min_score` when no scores were observed.  `sqrtQ` models `** 0.5`. -/
def adaptiveThreshold (minScore : ℚ) (sqrtQ : ℚ → ℚ) (scores : List ℚ) : ℚ :=
  if scores.isEmpty then minScore
  else
    let avg := scores.sum / (scores.length : ℚ)
    let sorted := sortDescBy id scores
    let top20 := sorted.getD (max 0 (min (scores.length / 5) (scores.length - 1))) 0
    let variance := ((sorted.map (fun s => (s - avg) ^ 2)).sum) / ((sorted.length : ℕ) : ℚ)
    let std := sqrtQ variance
    max minScore (min (min (avg + (1/2) * std) ((avg + top20) / 2)) (3/4))

/-- Accumulator for scanning one document's articles or appendices in the
second pass: the accepted boosted scores and the enriched copies. -/
structure SubScan where
  scores : List ℚ
  matched : List Sub
  deriving Repr

/-- Second-pass treatment of one article (retriever.py lines 443-490):
keyword pre-filter, multiplicative boosts (key-article ×1.25, importance,
numeric-token match ×1.5, term-frequency), acceptance at the article
threshold, enrichment of the accepted copy. -/
def scanArticle (env : Env) (query : String) (kws : List String)
    (tf : List (String × ℚ)) (adaptive artTh : ℚ) (st : SubScan) (a : Sub) : SubScan :=
  let txt := articleText a
  if !containsKeywords txt kws then st
  else
    let boost : ℚ := 1
    let boost := if a.is_key_article.getD false then boost * (5/4) else boost
    let boost := match a.importance with
      | some imp => boost * (1 + imp / 8)
      | none => boost
    -- `if article.get('article_number') and any(kw.isdigit() …)` followed by
    -- the first digit keyword contained in the number string (the outer
    -- `any` is implied by the inner condition).
    let boost := if optTruthy a.article_number &&
        kws.any (fun kw => pyIsDigitStr kw && strContains (a.article_number.getD "") kw)
      then boost * (3/2) else boost
    let termBoost := calcTermMatchBoost txt tf
    let boost := boost * (1 + termBoost)
    let simv := env.sim query txt * boost
    if artTh ≤ simv then
      let aCopy := { a with
        similarity_score := some simv,
        is_high_match := some (decide (adaptive + 1/10 ≤ simv)),
        boost_factor := some boost }
      let aCopy := match a.text with
        | some t =>
          let snips := extractContextSnippets t kws
          if !snips.isEmpty then { aCopy with highlighted_snippets := some snips } else aCopy
        | none => aCopy
      ⟨st.scores ++ [simv], st.matched ++ [aCopy]⟩
    else st

/-- Second-pass treatment of one appendix (retriever.py lines 493-539):
table ×1.25, key-appendix ×1.4, title keyword overlap +20% each,
term-frequency boost, acceptance at the appendix threshold. -/
def scanAppendix (env : Env) (query : String) (kws : List String)
    (tf : List (String × ℚ)) (adaptive appTh : ℚ) (st : SubScan) (p : Sub) : SubScan :=
  let txt := appendixText p
  if !containsKeywords txt kws then st
  else
    let boost : ℚ := 1
    let boost := if p.has_table.getD false then boost * (5/4) else boost
    let boost := if p.is_key_appendix.getD false then boost * (7/5) else boost
    let boost := if optTruthy p.title then
        let cnt := (kws.filter
          (fun kw => strContains (pyLower (p.title.getD "")) (pyLower kw))).length
        if 0 < cnt then boost * (1 + (cnt : ℚ) * (1/5)) else boost
      else boost
    let termBoost := calcTermMatchBoost txt tf
    let boost := boost * (1 + termBoost)
    let simv := env.sim query txt * boost
    if appTh ≤ simv then
      let pCopy := { p with
        similarity_score := some simv,
        is_high_match := some (decide (adaptive + 1/10 ≤ simv)),
        boost_factor := some boost }
      let pCopy := match p.text with
        | some t =>
          let snips := extractContextSnippets t kws
          if !snips.isEmpty then { pCopy with highlighted_snippets := some snips } else pCopy
        | none => pCopy
      ⟨st.scores ++ [simv], st.matched ++ [pCopy]⟩
    else st

/-- Insert-or-replace in an insertion-ordered association list: the
semantics of assignment into a Python dict (existing keys keep their
position). -/
def upsertKP {β : Type} (m : List (String × β)) (k : String) (v : β) : List (String × β) :=
  if m.any (fun e => e.1 = k) then m.map (fun e => if e.1 = k then (k, v) else e)
  else m ++ [(k, v)]

/-- Dict lookup. -/
def lookupKP {β : Type} (m : List (String × β)) (k : String) : Option β :=
  (m.find? (fun e => decide (e.1 = k))).map Prod.snd

/-- `doc.metadata.get('id', f"doc_{idx}")`. -/
def docIdOf (idx : Nat) (d : Doc) : String := d.id.getD ("doc_" ++ toString idx)

/-- State threaded through the second pass of
`_search_articles_and_appendices`: running best subsection score/index/id,
the id-keyed document map, the enhanced result list and the per-document
precision map. -/
structure Pass2State where
  best : ℚ
  bestIdx : Int
  bestId : Option String
  docMap : List (String × (Doc × ℚ))
  enhanced : List (Doc × ℚ)
  precMap : List (String × ℚ)

/-- Second-pass treatment of one candidate document (retriever.py lines
403-623): parse sub-structures, scan them, record precision, fuse the
document score with subsection/diversity/precision terms and the metadata
bonus, and track the best-matching document. -/
def processDoc (env : Env) (cfg : Config) (query : String) (kws : List String)
    (tf : List (String × ℚ)) (adaptive artTh appTh : ℚ)
    (st : Pass2State) (idx : Nat) (d : Doc) (s : ℚ) : Pass2State :=
  if s < cfg.min_score * (4/5) then st
  else
    let docId := docIdOf idx d
    let arts := parseSub d.articles
    let apps := parseSub d.appendices
    let aScan := arts.foldl (scanArticle env query kws tf adaptive artTh) ⟨[], []⟩
    let pScan := apps.foldl (scanAppendix env query kws tf adaptive appTh) ⟨[], []⟩
    let totalA := arts.length
    let totalP := apps.length
    let precMap := if 0 < totalA ∨ 0 < totalP then
        upsertKP st.precMap docId
          (((aScan.matched.length + pScan.matched.length : ℕ) : ℚ) / (((totalA + totalP : ℕ)) : ℚ))
      else st.precMap
    if aScan.matched.isEmpty && pScan.matched.isEmpty then { st with precMap := precMap }
    else
      let maxA := maxListD aScan.scores 0
      let maxP := maxListD pScan.scores 0
      let covA : ℚ := if 0 < totalA then ((aScan.matched.length : ℕ) : ℚ) / ((totalA : ℕ) : ℚ) else 0
      let covP : ℚ := if 0 < totalP then ((pScan.matched.length : ℕ) : ℚ) / ((totalP : ℕ) : ℚ) else 0
      let diversity := min 1 ((covA + covP) / 2 +
        (1/20) * (((aScan.matched.length + pScan.matched.length : ℕ)) : ℚ))
      let w : ℚ × ℚ :=
        if maxP * (3/2) < maxA then (4/5, 1/5)
        else if maxA * (3/2) < maxP then (1/5, 4/5)
        else (3/5, 2/5)
      let subsec := if 0 < maxA ∧ 0 < maxP then w.1 * maxA + w.2 * maxP else max maxA maxP
      let precFactor := (lookupKP precMap docId).getD (1/2)
      let bonus := calcMetadataMatchBonus d query kws
      let enh := (1/5) * s + (3/5) * subsec + (1/10) * diversity + (1/10) * precFactor + bonus
      let newBest := if st.best < subsec then subsec else st.best
      let newBestIdx := if st.best < subsec then (idx : Int) else st.bestIdx
      let newBestId := if st.best < subsec then some docId else st.bestId
      let hasBest := decide (subsec = newBest)
      let ed := { d with
        matched_articles := some aScan.matched,
        matched_appendices := some pScan.matched,
        original_score := some s,
        subsection_score := some subsec,
        precision_score := some precFactor,
        diversity_score := some diversity,
        metadata_bonus := some bonus,
        has_best_match := some hasBest,
        total_matches := some (aScan.matched.length + pScan.matched.length),
        match_coverage := some (if 0 < totalA ∨ 0 < totalP then (covA + covP) / 2 else 0) }
      { best := newBest, bestIdx := newBestIdx, bestId := newBestId,
        docMap := upsertKP st.docMap docId (ed, enh),
        enhanced := st.enhanced ++ [(ed, enh)],
        precMap := precMap }

/-- Replace the score of the first entry with the given page content
(the `for i, (d, s) in enumerate(enhanced_results) … break` update). -/
def updFirstContent : List (Doc × ℚ) → String → ℚ → List (Doc × ℚ)
  | [], _, _ => []
  | (d, s) :: rest, content, v =>
    if d.page_content = content then (d, v) :: rest
    else (d, s) :: updFirstContent rest content v

/-- One re-ranking step (retriever.py lines 634-652): boost a non-best
document whose leading-1000-character similarity to the best document
exceeds 0.7 by up to 15%, updating both the map and the result list. -/
def rerankStep (env : Env) (bestContent : String) (bid : String)
    (acc : List (String × (Doc × ℚ)) × List (Doc × ℚ)) (entry : String × (Doc × ℚ)) :
    List (String × (Doc × ℚ)) × List (Doc × ℚ) :=
  if entry.1 = bid then acc
  else
    let dd := entry.2.1
    let sc := entry.2.2
    let ds := env.sim (takeChars 1000 bestContent) (takeChars 1000 dd.page_content)
    if 7/10 < ds then
      let boosted := sc * (1 + (ds - 7/10) * (1/2))
      (upsertKP acc.1 entry.1 (dd, boosted), updFirstContent acc.2 dd.page_content boosted)
    else acc

/-- Cross-document re-ranking (retriever.py lines 625-652); a falsy (empty)
best id disables it, as does an id absent from the map. -/
def rerank (env : Env) (st : Pass2State) :
    List (String × (Doc × ℚ)) × List (Doc × ℚ) :=
  match st.bestId with
  | none => (st.docMap, st.enhanced)
  | some bid =>
    if strEmpty bid then (st.docMap, st.enhanced)
    else
      match lookupKP st.docMap bid with
      | none => (st.docMap, st.enhanced)
      | some (bestDoc, _) =>
        st.docMap.foldl (rerankStep env bestDoc.page_content bid) (st.docMap, st.enhanced)

/-- The near-duplicate signature: first 200 characters, stripped
(retriever.py line 664). -/
def contentSig (d : Doc) : String := pyStrip (takeChars 200 d.page_content)

/-- Near-duplicate collapse keeping the first (after the descending sort:
highest-scoring) instance of each signature (retriever.py lines 657-669). -/
def dedupBySig (l : List (Doc × ℚ)) : List (Doc × ℚ) :=
  (l.foldl (fun (acc : List (Doc × ℚ) × List String) p =>
    if acc.2.contains (contentSig p.1) then acc
    else (acc.1 ++ [p], contentSig p.1 :: acc.2)) ([], [])).1

/-- The final result-set assembly (retriever.py lines 672-756): when no
surviving result carries the best-match flag and a best id exists, pull the
best document back in, replacing the lowest-scoring entry when the list is
full, and re-sort. -/
def pickFinal (cfg : Config) (rrm : List (String × (Doc × ℚ))) (bid? : Option String)
    (filtered : List (Doc × ℚ)) : List (Doc × ℚ) :=
  let included := filtered.any (fun p => p.1.has_best_match.getD false)
  match bid? with
  | some bid =>
    if !included && !strEmpty bid then
      match lookupKP rrm bid with
      | some be =>
        let repl := if cfg.default_k ≤ filtered.length then
            filtered.set (minIdx (filtered.map Prod.snd)) be
          else filtered ++ [be]
        sortDescBy Prod.snd repl
      | none => filtered
    else filtered
  | none => filtered

/-- `_search_articles_and_appendices` (retriever.py lines 268-766):
the full hierarchical subsection search. -/
def searchArticlesAndAppendices (env : Env) (cfg : Config) (query : String) :
    List Doc × List ℚ :=
  let results := env.store query (cfg.max_k * 5) none
  if results.isEmpty then ([], [])
  else
    let kws := extractQueryKeywords query
    let allScores := pass1SubScores env cfg query kws results
    let adaptive := adaptiveThreshold cfg.min_score env.sqrtQ allScores
    let artTh := adaptive * (19/20)
    let appTh := adaptive * (9/10)
    let tf := calcTermFrequency env.logQ kws results
    let st0 : Pass2State := ⟨0, -1, none, [], [], []⟩
    let stF := (results.foldl (fun (acc : Pass2State × Nat) p =>
        (processDoc env cfg query kws tf adaptive artTh appTh acc.1 acc.2 p.1 p.2, acc.2 + 1))
      (st0, 0)).1
    let rr := rerank env stF
    let sorted := sortDescBy Prod.snd rr.2
    let deduped := dedupBySig sorted
    let filtered := (deduped.filter (fun p => cfg.min_score ≤ p.2)).take cfg.default_k
    if filtered.isEmpty then ([], [])
    else
      let final := pickFinal cfg rr.1 stF.bestId filtered
      (final.map Prod.fst, final.map Prod.snd)

/-- `str(x).strip().lower()` — the identifier normalization of
`_ensure_complete_articles_and_appendices`. -/
def normKey (s : String) : String := pyLower (pyStrip s)

/-- Normalized article number key. -/
def artKey (a : Sub) : String := normKey (a.article_number.getD "")

/-- Normalized appendix title key. -/
def appTitleKey (p : Sub) : String := normKey (p.title.getD "")

/-- Normalized appendix number key. -/
def appNumKey (p : Sub) : String := normKey (p.appendix_number.getD "")

/-- `f"text_{hash(text[:50])}"` — the fallback key for identifier-less
sub-structures; `pyhash` models Python's `hash`. -/
def textHashKey (pyhash : String → Int) (t : String) : String :=
  "text_" ++ toString (pyhash (takeChars 50 t))

/-- `'matched_articles' not in doc.metadata or not doc.metadata[…]`. -/
def matchedFalsy : Option (List Sub) → Bool
  | none => true
  | some l => l.isEmpty

/-- `{**sub, 'similarity_score': 0.0, 'is_high_match': False}`. -/
def zeroOut (a : Sub) : Sub :=
  { a with similarity_score := some 0, is_high_match := some false }

/-- `_extract_subsections_from_structured_data` (retriever.py lines
1153-1183): copy `subsections.articles` / `subsections.appendices` into the
top-level slots when those are absent or falsy. -/
def extractSubsectionsFromStructured (d : Doc) : Doc :=
  match d.subsections with
  | .dict arts apps =>
    let newArts := match arts with
      | some l =>
        if !l.isEmpty && (!d.articles.present || !d.articles.truthy) then SubField.lst l
        else d.articles
      | none => d.articles
    let newApps := match apps with
      | some l =>
        if !l.isEmpty && (!d.appendices.present || !d.appendices.truthy) then SubField.lst l
        else d.appendices
      | none => d.appendices
    { d with articles := newArts, appendices := newApps }
  | _ => d

/-- The membership set built from the already-matched articles
(retriever.py lines 1049-1054: only non-empty normalized numbers register). -/
def artLookup0 (ms : List Sub) : List String :=
  ms.foldl (fun L m => let k := artKey m; if !strEmpty k then k :: L else L) []

/-- One step of the add-missing-articles loop (retriever.py lines
1057-1071): identify the raw article (number, else text hash, else skip),
append a zero-scored copy when unseen, and remember its key. -/
def articleFoldStep (pyhash : String → Int) (acc : List Sub × List String) (a : Sub) :
    List Sub × List String :=
  let k0 := artKey a
  let k := if !strEmpty k0 then k0
    else match a.text with
      | some t => if !strEmpty t then textHashKey pyhash t else ""
      | none => ""
  if strEmpty k then acc
  else if acc.2.contains k then acc
  else (acc.1 ++ [zeroOut a], k :: acc.2)

/-- Add the missing raw articles to the matched list and sort by the numeric
part of the article number (retriever.py lines 1047-1077). -/
def mergeMatchedArticles (pyhash : String → Int) (raws ms : List Sub) : List Sub :=
  sortAscNum (fun a => extractNumericPart (a.article_number.getD ""))
    (raws.foldl (articleFoldStep pyhash) (ms, artLookup0 ms)).1

/-- The membership set built from the already-matched appendices
(retriever.py lines 1095-1108): `title_…` and `num_…` keys, with a
`text_…` hash key only when both identifiers are empty. -/
def appKeyStep (pyhash : String → Int) (L : List String) (m : Sub) : List String :=
  let t := appTitleKey m
  let n := appNumKey m
  let L := if !strEmpty t then ("title_" ++ t) :: L else L
  let L := if !strEmpty n then ("num_" ++ n) :: L else L
  if strEmpty t && strEmpty n then
    match m.text with
    | some tx => if !strEmpty tx then (textHashKey pyhash tx) :: L else L
    | none => L
  else L

def appLookup0 (pyhash : String → Int) (mps : List Sub) : List String :=
  mps.foldl (appKeyStep pyhash) []

/-- One step of the add-missing-appendices loop (retriever.py lines
1111-1138): the `if / elif / elif` matching chain over title, number and
text-hash keys, appending a zero-scored copy and registering its title and
number keys when unmatched. -/
def appendixFoldStep (pyhash : String → Int) (acc : List Sub × List String) (p : Sub) :
    List Sub × List String :=
  let t := appTitleKey p
  let n := appNumKey p
  let isMatched :=
    if !strEmpty t && acc.2.contains ("title_" ++ t) then true
    else if !strEmpty n && acc.2.contains ("num_" ++ n) then true
    else match p.text with
      | some tx => if !strEmpty tx then acc.2.contains (textHashKey pyhash tx) else false
      | none => false
  if isMatched then acc
  else
    let L := acc.2
    let L := if !strEmpty t then ("title_" ++ t) :: L else L
    let L := if !strEmpty n then ("num_" ++ n) :: L else L
    (acc.1 ++ [zeroOut p], L)

/-- Add the missing raw appendices and sort by the numeric part of the
appendix number (retriever.py lines 1093-1144). -/
def mergeMatchedAppendices (pyhash : String → Int) (rapps mps : List Sub) : List Sub :=
  sortAscNum (fun p => extractNumericPart (p.appendix_number.getD ""))
    (rapps.foldl (appendixFoldStep pyhash) (mps, appLookup0 pyhash mps)).1

/-- Branch 1 of `_ensure_complete_articles_and_appendices` (retriever.py
lines 994-1013): when matched articles are absent or falsy but raw articles
parse to a non-empty list, synthesize a full zero-scored matched list. -/
def ensureArtSynth (d : Doc) : Doc :=
  if d.articles.present && matchedFalsy d.matched_articles then
    let articlesData := parseSub d.articles
    if !articlesData.isEmpty then
      { d with matched_articles := some (articlesData.map zeroOut) }
    else d
  else d

/-- Branch 2 (retriever.py lines 1016-1035): the same for appendices. -/
def ensureAppSynth (d : Doc) : Doc :=
  if d.appendices.present && matchedFalsy d.matched_appendices then
    let appendicesData := parseSub d.appendices
    if !appendicesData.isEmpty then
      { d with matched_appendices := some (appendicesData.map zeroOut) }
    else d
  else d

/-- Branch 3 (retriever.py lines 1038-1081): add the missing raw articles to
an existing matched list and sort it numerically. -/
def ensureArtMerge (env : Env) (d : Doc) : Doc :=
  match d.matched_articles with
  | some ms =>
    if d.articles.present then
      let articlesData := parseSub d.articles
      if !articlesData.isEmpty then
        { d with matched_articles := some (mergeMatchedArticles env.pyhash articlesData ms) }
      else d
    else d
  | none => d

/-- Branch 4 (retriever.py lines 1084-1148): the same for appendices. -/
def ensureAppMerge (env : Env) (d : Doc) : Doc :=
  match d.matched_appendices with
  | some mps =>
    if d.appendices.present then
      let appendicesData := parseSub d.appendices
      if !appendicesData.isEmpty then
        { d with matched_appendices := some (mergeMatchedAppendices env.pyhash appendicesData mps) }
      else d
    else d
  | none => d

/-- `_ensure_complete_articles_and_appendices` (retriever.py lines 979-1151),
the CompletenessGuarantor: subsection extraction, synthesis of a full
zero-scored matched list when none exists, then the add-missing merge and
the numeric sort, for articles and for appendices. -/
def ensureCompleteDoc (env : Env) (d0 : Doc) : Doc :=
  ensureAppMerge env (ensureArtMerge env
    (ensureAppSynth (ensureArtSynth (extractSubsectionsFromStructured d0))))

/-- Locate the document with the highest `subsection_score` (default 0,
index 0 when none exceeds it — retriever.py lines 805-813 / 950-957). -/
def findHighestIdx (docs : List Doc) : Nat :=
  (docs.foldl (fun (acc : ℚ × Nat × Nat) d =>
    let sub := d.subsection_score.getD 0
    if acc.1 < sub then (sub, acc.2.2, acc.2.2 + 1) else (acc.1, acc.2.1, acc.2.2 + 1))
    (0, 0, 0)).2.1

/-- Remove `matched_articles` / `matched_appendices` from every document
except the best-match one (retriever.py lines 822-829 / 965-972). -/
def stripNonBest (docs : List Doc) (hIdx : Nat) : List Doc :=
  docs.mapIdx (fun i dd => if i = hIdx then dd
    else { dd with matched_articles := none, matched_appendices := none })

/-- The best-match post-processing of the dense delegation path
(retriever.py lines 805-832): complete the highest-subsection-score
document, strip the rest, keep the scores. -/
def densePost (env : Env) (docs : List Doc) (scores : List ℚ) :
    List Doc × List ℚ :=
  let hIdx := findHighestIdx docs
  let docs := if hIdx < docs.length then
      docs.set hIdx (ensureCompleteDoc env (docs.getD hIdx (Doc.mk0 "")))
    else docs
  (stripNonBest docs hIdx, scores)

/-- Count the non-`None` metadata filter fields (retriever.py lines 788-796). -/
def countFilters (f : MetadataFilters) : Nat :=
  [f.decision_number.isSome, f.year.isSome, f.chunk_type.isSome,
   f.official_bulletin.isSome].countP (fun b => b = true)

/-- The ordered filter conditions (retriever.py lines 836-844). -/
def filterConds (f : MetadataFilters) : List (String × String) :=
  (match f.decision_number with | some v => [("decision_number", v)] | none => []) ++
  (match f.year with | some v => [("year", v)] | none => []) ++
  (match f.chunk_type with | some v => [("chunk_type", v)] | none => []) ++
  (match f.official_bulletin with | some v => [("official_bulletin", v)] | none => [])

/-- `{"$and": conds}` for several conditions, the single condition alone,
or `None` (retriever.py lines 846-851). -/
def filterDict (f : MetadataFilters) : Option VFilter :=
  let conds := filterConds f
  if 1 < conds.length then some (.conj conds)
  else match conds with
    | [c] => some (.single c)
    | _ => none

/-- The metadata-filtered vector query of `_dense_retrieval`
(retriever.py lines 855-883): query at `max_k`, drop below `min_score`,
sort descending, truncate to `default_k`. -/
def denseFallback (env : Env) (cfg : Config) (query : String) (f : MetadataFilters) :
    List Doc × List ℚ :=
  let results := env.store query cfg.max_k (filterDict f)
  let filtered := results.filter (fun p => cfg.min_score ≤ p.2)
  let sorted := sortDescBy Prod.snd filtered
  let top := sorted.take cfg.default_k
  (top.map Prod.fst, top.map Prod.snd)

/-- `_dense_retrieval` (retriever.py lines 775-883): with fewer than 2
filters, delegate to the subsection search and post-process a non-empty
answer; otherwise (or when the delegation comes back empty) run the
metadata-filtered vector query. -/
def denseRetrieval (env : Env) (cfg : Config) (query : String) (f : MetadataFilters) :
    List Doc × List ℚ :=
  if countFilters f < 2 then
    let sr := searchArticlesAndAppendices env cfg query
    if !sr.1.isEmpty then densePost env sr.1 sr.2
    else denseFallback env cfg query f
  else denseFallback env cfg query f

/-- The tail of `_merge_results` (retriever.py lines 943-977): empty guard,
completeness for the highest-subsection-score document, stripping of the
matched fields of every other document. -/
def postMerge (env : Env) (filtered : List (Doc × ℚ)) : List Doc × List ℚ :=
  if filtered.isEmpty then ([], [])
  else
    let docs := filtered.map Prod.fst
    let scores := filtered.map Prod.snd
    let hIdx := findHighestIdx docs
    let docs := docs.set hIdx (ensureCompleteDoc env (docs.getD hIdx (Doc.mk0 "")))
    (stripNonBest docs hIdx, scores)

/-- `_merge_results` (retriever.py lines 900-977): weighted fusion keyed by
page content (dense 0.7, sparse 0.3), descending sort, `min_score` filter,
`max_k` truncation, then completeness for the highest-subsection-score
document and stripping of all others. -/
def mergeResults (env : Env) (cfg : Config) (dense sparse : List (Doc × ℚ)) :
    List Doc × List ℚ :=
  let m : List (String × (Doc × ℚ)) :=
    dense.foldl (fun m p => upsertKP m p.1.page_content (p.1, (7/10) * p.2)) []
  let m := sparse.foldl (fun m p =>
      match lookupKP m p.1.page_content with
      | some e => upsertKP m p.1.page_content (e.1, e.2 + (3/10) * p.2)
      | none => m ++ [(p.1.page_content, (p.1, (3/10) * p.2))]) m
  let sorted := sortDescBy Prod.snd (m.map Prod.snd)
  let filtered := (sorted.filter (fun p => cfg.min_score ≤ p.2)).take cfg.max_k
  postMerge env filtered

/-! ### Specification-side definitions

These follow the wording of the spec's claims and are compared against the
embedded code. -/

/-- The mean of a score population (spec §4.4, adaptive thresholding). -/
def meanQ (l : List ℚ) : ℚ := l.sum / (l.length : ℚ)

/-- The population variance of a score population. -/
def varQ (l : List ℚ) : ℚ := ((l.map (fun s => (s - meanQ l) ^ 2)).sum) / (l.length : ℚ)

/-- The top-20% (80th percentile) score of a population: the entry at index
`len // 5` (clamped) of the descending sort. -/
def p80Q (l : List ℚ) : ℚ :=
  (sortDescBy id l).getD (max 0 (min (l.length / 5) (l.length - 1))) 0

/-- Claim-side term-frequency sum: the total weight of the table keywords
contained in the text (spec §4.4, term-frequency weighting). -/
def containedWeightSum (text : String) (termFreq : List (String × ℚ)) : ℚ :=
  ((termFreq.filter (fun p => strContains (pyLower text) (pyLower p.1))).map Prod.snd).sum

/-- A document carrying a non-empty matched list with a genuinely positive
similarity score (spec §3, merge invariant). -/
def hasPosMatch (d : Doc) : Prop :=
  (∃ a ∈ d.matched_articles.getD [], 0 < a.similarity_score.getD 0) ∨
  (∃ p ∈ d.matched_appendices.getD [], 0 < p.similarity_score.getD 0)

instance (d : Doc) : Decidable (hasPosMatch d) := by
  unfold hasPosMatch; infer_instance

/-- Ascending-by-numeric-part order on matched articles (non-numeric last). -/
def artNumOrder (a b : Sub) : Prop :=
  numLt (extractNumericPart (b.article_number.getD ""))
        (extractNumericPart (a.article_number.getD "")) = false

/-- Ascending-by-numeric-part order on matched appendices. -/
def appNumOrder (a b : Sub) : Prop :=
  numLt (extractNumericPart (b.appendix_number.getD ""))
        (extractNumericPart (a.appendix_number.getD "")) = false

/-! ### Concrete instances used by witnesses and counterexamples -/

/-- An article numbered 7 whose text matches the test query. -/
def subA : Sub := { Sub.mk0 with article_number := some "7", text := some "qqqq" }

/-- A candidate document holding `subA`. -/
def dA : Doc := { Doc.mk0 "zzz" with articles := .lst [subA] }

/-- A test environment: the store returns `dA` for the wide subsection-search
query (k = 50) and nothing otherwise; similarity is constantly 0.9. -/
def envA : Env :=
  { store := fun _ k _ => if k = 50 then [(dA, 9/10)] else []
    sim := fun _ _ => 9/10
    logQ := fun _ => 0
    sqrtQ := fun q => q
    pyhash := fun _ => 0 }

/-- The empty metadata filter set. -/
def noFilters : MetadataFilters := ⟨none, none, none, none⟩

/-- An environment whose store answers only the `k = 10` dense fallback
query: the subsection search finds nothing, the weak-filter query does. -/
def envB : Env :=
  { store := fun _ k _ => if k = 10 then [(Doc.mk0 "yyy", 9/10)] else []
    sim := fun _ _ => 9/10
    logQ := fun _ => 0
    sqrtQ := fun q => q
    pyhash := fun _ => 0 }

/-- 200 `a` characters — a shared near-duplicate prefix. -/
def pref200 : String := String.mk (List.replicate 200 'a')

/-- First near-duplicate document (prefix plus `x`). -/
def dupX : Doc := Doc.mk0 (pref200 ++ "x")

/-- Second near-duplicate document (prefix plus `y`). -/
def dupY : Doc := Doc.mk0 (pref200 ++ "y")

/-- A merged-path document carrying a positively scored matched article. -/
def dPos : Doc :=
  { Doc.mk0 "posdoc" with
    matched_articles := some [{ Sub.mk0 with
      article_number := some "1", similarity_score := some (3/5) }]
    subsection_score := some (3/5) }

/-- A plain second document for merge tests. -/
def dPlain : Doc := Doc.mk0 "plaindoc"

/-- A document with a malformed `articles` payload and no appendices;
parametric in the unparseable string. -/
def badDoc (s : String) : Doc := { Doc.mk0 "bbb" with articles := .malformed s }

/-- The same document with the malformed payload replaced by a parsed empty
list. -/
def badDocZero : Doc := { Doc.mk0 "bbb" with articles := .lst [] }

/-- A healthy companion document whose article matches the test query. -/
def goodDoc : Doc := { Doc.mk0 "ggg" with articles := .lst [subA] }

/-- Environment with a malformed-payload document in the candidate pool. -/
def env9 (s : String) : Env :=
  { store := fun _ k _ => if k = 50 then [(badDoc s, 9/10), (goodDoc, 9/10)] else []
    sim := fun _ _ => 9/10
    logQ := fun _ => 0
    sqrtQ := fun q => q
    pyhash := fun _ => 0 }

/-- The same pool with the malformed payload replaced by an empty list. -/
def env9z : Env :=
  { store := fun _ k _ => if k = 50 then [(badDocZero, 9/10), (goodDoc, 9/10)] else []
    sim := fun _ _ => 9/10
    logQ := fun _ => 0
    sqrtQ := fun q => q
    pyhash := fun _ => 0 }

/-- Three-document pool for the term-frequency counterexample: exactly one
document contains the keyword `abc`. -/
def tfPool : List (Doc × ℚ) :=
  [(Doc.mk0 "abc here", 9/10), (Doc.mk0 "xyz", 9/10), (Doc.mk0 "uvw", 9/10)]

/-- The normalized term-frequency table of `["abc"]` over `tfPool` with a
model logarithm `log q = q - 1` (so `log 3 = 2 > 0`). -/
def tfTable : List (String × ℚ) := calcTermFrequency (fun q => q - 1) ["abc"] tfPool

/-- An article with a given number. -/
def artNum (n : String) : Sub := { Sub.mk0 with article_number := some n, text := some "t" }

/-- An appendix with a given title (and no number). -/
def appTitled (t : String) : Sub := { Sub.mk0 with title := some t, text := some "t" }

/-- A document with unsorted raw articles and appendices and no matches,
exercising the CompletenessGuarantor. -/
def dComplete : Doc :=
  { Doc.mk0 "c3" with
    articles := .lst [artNum "7", artNum "2"]
    appendices := .lst [appTitled "alpha", appTitled "beta"] }

/-- An article without any identifying feature (no number, no text). -/
def artNoId : Sub := Sub.mk0

/-- Raw article number 3 and its positively scored matched copy. -/
def artThree : Sub := { Sub.mk0 with article_number := some "3" }

/-- The scored copy of `artThree`. -/
def artThreeScored : Sub :=
  { artThree with similarity_score := some (4/5), is_high_match := some true }

/-- A document whose raw articles contain an entry with no identifiable
key: the guarantor skips it, breaking the claimed length equality. -/
def dBadArticle : Doc :=
  { Doc.mk0 "c3bad" with
    articles := .lst [artThree, artNoId]
    matched_articles := some [artThreeScored] }

/-! ### Helper lemmas -/

theorem insertDescBy_perm {α : Type} (key : α → ℚ) (x : α) (l : List α) :
    (insertDescBy key x l).Perm (x :: l) := by
  induction l with
  | nil => exact List.Perm.refl _
  | cons y ys ih =>
    unfold insertDescBy
    by_cases h : key x < key y
    · simp only [if_pos h]
      exact (ih.cons y).trans (List.Perm.swap x y ys)
    · simp only [if_neg h]
      exact List.Perm.refl _

theorem sortDescBy_perm {α : Type} (key : α → ℚ) (l : List α) :
    (sortDescBy key l).Perm l := by
  induction l with
  | nil => exact List.Perm.refl _
  | cons x xs ih =>
    exact (insertDescBy_perm key x (sortDescBy key xs)).trans (ih.cons x)

theorem pairwise_insertDescBy {α : Type} (key : α → ℚ) (x : α) (l : List α)
    (h : l.Pairwise (fun a b => key b ≤ key a)) :
    (insertDescBy key x l).Pairwise (fun a b => key b ≤ key a) := by
  induction l with
  | nil => simp [insertDescBy]
  | cons y ys ih =>
    rw [List.pairwise_cons] at h
    unfold insertDescBy
    by_cases hxy : key x < key y
    · simp only [if_pos hxy]
      rw [List.pairwise_cons]
      refine ⟨?_, ih h.2⟩
      intro z hz
      rcases List.mem_cons.mp ((insertDescBy_perm key x ys).mem_iff.mp hz) with h1 | h2
      · exact h1 ▸ le_of_lt hxy
      · exact h.1 z h2
    · simp only [if_neg hxy]
      rw [List.pairwise_cons]
      refine ⟨?_, List.pairwise_cons.mpr h⟩
      intro z hz
      rcases List.mem_cons.mp hz with h1 | h2
      · exact h1 ▸ not_lt.mp hxy
      · exact le_trans (h.1 z h2) (not_lt.mp hxy)

theorem pairwise_sortDescBy {α : Type} (key : α → ℚ) (l : List α) :
    (sortDescBy key l).Pairwise (fun a b => key b ≤ key a) := by
  induction l with
  | nil => simp [sortDescBy]
  | cons x xs ih => exact pairwise_insertDescBy key x _ ih

theorem numLt_asymm {a b : Option Nat} (h : numLt a b = true) : numLt b a = false := by
  cases a <;> cases b <;> simp_all [numLt] <;> omega

theorem numLt_le_trans {a b c : Option Nat}
    (h1 : numLt b a = false) (h2 : numLt c b = false) : numLt c a = false := by
  cases a <;> cases b <;> cases c <;> simp_all [numLt] <;> omega

theorem insertAscNum_perm (key : Sub → Option Nat) (x : Sub) (l : List Sub) :
    (insertAscNum key x l).Perm (x :: l) := by
  induction l with
  | nil => exact List.Perm.refl _
  | cons y ys ih =>
    unfold insertAscNum
    by_cases h : numLt (key y) (key x) = true
    · simp only [if_pos h]
      exact (ih.cons y).trans (List.Perm.swap x y ys)
    · simp only [if_neg h]
      exact List.Perm.refl _

theorem sortAscNum_perm (key : Sub → Option Nat) (l : List Sub) :
    (sortAscNum key l).Perm l := by
  induction l with
  | nil => exact List.Perm.refl _
  | cons x xs ih =>
    exact (insertAscNum_perm key x (sortAscNum key xs)).trans (ih.cons x)

theorem sortAscNum_length (key : Sub → Option Nat) (l : List Sub) :
    (sortAscNum key l).length = l.length :=
  (sortAscNum_perm key l).length_eq

theorem pairwise_insertAscNum (key : Sub → Option Nat) (x : Sub) (l : List Sub)
    (h : l.Pairwise (fun a b => numLt (key b) (key a) = false)) :
    (insertAscNum key x l).Pairwise (fun a b => numLt (key b) (key a) = false) := by
  induction l with
  | nil => simp [insertAscNum]
  | cons y ys ih =>
    rw [List.pairwise_cons] at h
    unfold insertAscNum
    by_cases hxy : numLt (key y) (key x) = true
    · simp only [if_pos hxy]
      rw [List.pairwise_cons]
      refine ⟨?_, ih h.2⟩
      intro z hz
      rcases List.mem_cons.mp ((insertAscNum_perm key x ys).mem_iff.mp hz) with h1 | h2
      · exact h1 ▸ numLt_asymm hxy
      · exact h.1 z h2
    · simp only [if_neg hxy]
      rw [List.pairwise_cons]
      refine ⟨?_, List.pairwise_cons.mpr h⟩
      intro z hz
      rcases List.mem_cons.mp hz with h1 | h2
      · exact h1 ▸ Bool.eq_false_iff.mpr hxy
      · exact numLt_le_trans (Bool.eq_false_iff.mpr hxy) (h.1 z h2)

theorem pairwise_sortAscNum (key : Sub → Option Nat) (l : List Sub) :
    (sortAscNum key l).Pairwise (fun a b => numLt (key b) (key a) = false) := by
  induction l with
  | nil => simp [sortAscNum]
  | cons x xs ih => exact pairwise_insertAscNum key x _ ih

theorem foldl_cond_add (q : String × ℚ → Bool) :
    ∀ (l : List (String × ℚ)) (b : ℚ),
      l.foldl (fun acc e => if q e then acc + e.2 else acc) b =
        b + ((l.filter q).map Prod.snd).sum := by
  intro l
  induction l with
  | nil => simp
  | cons e es ih =>
    intro b
    by_cases hq : q e
    · simp only [List.foldl_cons, List.filter_cons, hq, if_pos, ite_true, List.map_cons,
        List.sum_cons, ih]
      ring
    · simp only [List.foldl_cons, List.filter_cons, hq, Bool.false_eq_true, if_false,
        ite_false, ih]

/-! ### Claim C4 — adaptive threshold -/

/-- Claim C4: for a non-empty pass-1 score population the pass-2 base
threshold equals `max(min_score, min(mean + 0.5·std, (mean + p80)/2, 0.75))`;
it is never below `min_score`, stays at or below 0.75 whenever the floor
itself does, and falls back to `min_score` on an empty population. -/
theorem adaptive_threshold_formula (minScore : ℚ) (sqrtQ : ℚ → ℚ) (l : List ℚ)
    (h : l ≠ []) :
    adaptiveThreshold minScore sqrtQ l =
      max minScore
        (min (min (meanQ l + (1/2) * sqrtQ (varQ l)) ((meanQ l + p80Q l) / 2)) (3/4)) ∧
    minScore ≤ adaptiveThreshold minScore sqrtQ l ∧
    (minScore ≤ 3/4 → adaptiveThreshold minScore sqrtQ l ≤ 3/4) ∧
    adaptiveThreshold minScore sqrtQ [] = minScore := by
  have hne : l.isEmpty = false := by
    cases l with
    | nil => exact absurd rfl h
    | cons a as => rfl
  have hperm := sortDescBy_perm (id : ℚ → ℚ) l
  have hsum : ((sortDescBy (id : ℚ → ℚ) l).map (fun s => (s - meanQ l) ^ 2)).sum =
      (l.map (fun s => (s - meanQ l) ^ 2)).sum := (hperm.map _).sum_eq
  have hlen : (sortDescBy (id : ℚ → ℚ) l).length = l.length := hperm.length_eq
  have hmain : adaptiveThreshold minScore sqrtQ l =
      max minScore
        (min (min (meanQ l + (1/2) * sqrtQ (varQ l)) ((meanQ l + p80Q l) / 2)) (3/4)) := by
    simp only [adaptiveThreshold, hne, Bool.false_eq_true, if_false]
    simp only [meanQ, varQ, p80Q] at hsum hlen ⊢
    rw [hsum, hlen]
  refine ⟨hmain, ?_, ?_, rfl⟩
  · rw [hmain]; exact le_max_left _ _
  · intro hms
    rw [hmain]
    exact max_le hms (min_le_right _ _)

unseal Rat.add Rat.mul Rat.sub Rat.inv in
/-- Claim C4 counterexample: with the legal configuration
`min_score = 0.8` the threshold on the population `[0.9]` equals 0.8,
strictly above the claimed universal ceiling of 0.75. -/
theorem adaptive_threshold_ceiling_counterexample :
    adaptiveThreshold (4/5) (fun q => q) [9/10] = 4/5 ∧
    ¬ adaptiveThreshold (4/5) (fun q => q) [9/10] ≤ 3/4 := by decide

unseal Rat.add Rat.mul Rat.sub Rat.inv in
/-- Witness for `adaptive_threshold_formula` at `min_score = 1/2`,
population `[9/10]`, model square root the identity. -/
theorem adaptive_threshold_formula_witness :
    adaptiveThreshold (1/2) (fun q => q) [9/10] =
      max (1/2)
        (min (min (meanQ [9/10] + (1/2) * (varQ [9/10]))
          ((meanQ [9/10] + p80Q [9/10]) / 2)) (3/4)) ∧
    (1/2 : ℚ) ≤ adaptiveThreshold (1/2) (fun q => q) [9/10] ∧
    ((1/2 : ℚ) ≤ 3/4 → adaptiveThreshold (1/2) (fun q => q) [9/10] ≤ 3/4) ∧
    adaptiveThreshold (1/2) (fun q => q) [] = 1/2 :=
  adaptive_threshold_formula (1/2) (fun q => q) [9/10] (List.cons_ne_nil _ _)

/-! ### Claim C6 — term-frequency boost -/

/-- Claim C6 (amended): for non-empty text and a non-empty term-frequency
table, the boost is one third of the summed weights of the keywords
contained in the text, capped at 0.5 — not the raw sum capped at 0.5. -/
theorem term_boost_formula (text : String) (tf : List (String × ℚ))
    (ht : strEmpty text = false) (htf : tf ≠ []) :
    calcTermMatchBoost text tf = min (1/2) (containedWeightSum text tf / 3) := by
  have htf' : tf.isEmpty = false := by
    cases tf with
    | nil => exact absurd rfl htf
    | cons a as => rfl
  simp only [calcTermMatchBoost, ht, htf', Bool.or_self, Bool.false_eq_true, if_false,
    containedWeightSum, foldl_cond_add, zero_add]

unseal Rat.add Rat.mul Rat.sub Rat.inv in
/-- Claim C6 counterexample: on the genuine IDF table of keyword `abc`
over a three-document pool (normalized weight 1), a text containing the
keyword receives boost 1/3 while the claimed formula
`min(0.5, sum-of-weights)` gives 1/2. -/
theorem term_boost_counterexample :
    calcTermMatchBoost "abc" tfTable ≠
      min (1/2) (containedWeightSum "abc" tfTable) := by decide

unseal Rat.add Rat.mul Rat.sub Rat.inv in
/-- Witness for `term_boost_formula` on the same concrete table. -/
theorem term_boost_formula_witness :
    calcTermMatchBoost "abc" tfTable = min (1/2) (containedWeightSum "abc" tfTable / 3) :=
  term_boost_formula "abc" tfTable rfl (by decide)

/-! ### Claim C10 — empty keyword extraction -/

theorem containsKeywords_nil (t : String) : containsKeywords t [] = false := rfl

theorem scanArticle_nil (env : Env) (query : String) (tf : List (String × ℚ))
    (adaptive artTh : ℚ) (st : SubScan) (a : Sub) :
    scanArticle env query [] tf adaptive artTh st a = st := by
  simp [scanArticle, containsKeywords_nil]

theorem scanAppendix_nil (env : Env) (query : String) (tf : List (String × ℚ))
    (adaptive appTh : ℚ) (st : SubScan) (p : Sub) :
    scanAppendix env query [] tf adaptive appTh st p = st := by
  simp [scanAppendix, containsKeywords_nil]

theorem scanArticle_nil_fold (env : Env) (query : String) (tf : List (String × ℚ))
    (adaptive artTh : ℚ) (l : List Sub) (st : SubScan) :
    l.foldl (scanArticle env query [] tf adaptive artTh) st = st := by
  induction l generalizing st with
  | nil => rfl
  | cons a as ih => rw [List.foldl_cons, scanArticle_nil]; exact ih st

theorem scanAppendix_nil_fold (env : Env) (query : String) (tf : List (String × ℚ))
    (adaptive appTh : ℚ) (l : List Sub) (st : SubScan) :
    l.foldl (scanAppendix env query [] tf adaptive appTh) st = st := by
  induction l generalizing st with
  | nil => rfl
  | cons a as ih => rw [List.foldl_cons, scanAppendix_nil]; exact ih st

theorem processDoc_nil (env : Env) (cfg : Config) (query : String)
    (tf : List (String × ℚ)) (adaptive artTh appTh : ℚ)
    (st : Pass2State) (idx : Nat) (d : Doc) (s : ℚ) :
    (processDoc env cfg query [] tf adaptive artTh appTh st idx d s).enhanced = st.enhanced ∧
    (processDoc env cfg query [] tf adaptive artTh appTh st idx d s).docMap = st.docMap ∧
    (processDoc env cfg query [] tf adaptive artTh appTh st idx d s).bestId = st.bestId := by
  unfold processDoc
  split
  · exact ⟨rfl, rfl, rfl⟩
  · simp [scanArticle_nil_fold, scanAppendix_nil_fold]

theorem pass2_fold_nil (env : Env) (cfg : Config) (query : String)
    (tf : List (String × ℚ)) (adaptive artTh appTh : ℚ) (l : List (Doc × ℚ)) :
    ∀ (st : Pass2State) (i0 : Nat),
      ((l.foldl (fun (acc : Pass2State × Nat) p =>
          (processDoc env cfg query [] tf adaptive artTh appTh acc.1 acc.2 p.1 p.2, acc.2 + 1))
        (st, i0)).1.enhanced = st.enhanced ∧
       (l.foldl (fun (acc : Pass2State × Nat) p =>
          (processDoc env cfg query [] tf adaptive artTh appTh acc.1 acc.2 p.1 p.2, acc.2 + 1))
        (st, i0)).1.docMap = st.docMap ∧
       (l.foldl (fun (acc : Pass2State × Nat) p =>
          (processDoc env cfg query [] tf adaptive artTh appTh acc.1 acc.2 p.1 p.2, acc.2 + 1))
        (st, i0)).1.bestId = st.bestId) := by
  induction l with
  | nil => intro st i0; exact ⟨rfl, rfl, rfl⟩
  | cons p ps ih =>
    intro st i0
    rw [List.foldl_cons]
    have hpd := processDoc_nil env cfg query tf adaptive artTh appTh st i0 p.1 p.2
    have := ih (processDoc env cfg query [] tf adaptive artTh appTh st i0 p.1 p.2) (i0 + 1)
    exact ⟨this.1.trans hpd.1, this.2.1.trans hpd.2.1, this.2.2.trans hpd.2.2⟩

/-- Claim C10: when keyword extraction yields an empty list, the keyword
pre-filter rejects every sub-structure, so the hierarchical subsection
search returns no documents and no scores. -/
theorem empty_keywords_empty_search (env : Env) (cfg : Config) (query : String)
    (h : extractQueryKeywords query = []) :
    searchArticlesAndAppendices env cfg query = ([], []) := by
  unfold searchArticlesAndAppendices
  by_cases hr : (env.store query (cfg.max_k * 5) none).isEmpty
  · simp [hr]
  · simp only [hr, Bool.false_eq_true, if_false, h]
    have hf := pass2_fold_nil env cfg query
      (calcTermFrequency env.logQ [] (env.store query (cfg.max_k * 5) none))
      (adaptiveThreshold cfg.min_score env.sqrtQ
        (pass1SubScores env cfg query [] (env.store query (cfg.max_k * 5) none)))
      (adaptiveThreshold cfg.min_score env.sqrtQ
        (pass1SubScores env cfg query [] (env.store query (cfg.max_k * 5) none)) * (19/20))
      (adaptiveThreshold cfg.min_score env.sqrtQ
        (pass1SubScores env cfg query [] (env.store query (cfg.max_k * 5) none)) * (9/10))
      (env.store query (cfg.max_k * 5) none) ⟨0, -1, none, [], [], []⟩ 0
    simp only [rerank, hf.2.2, hf.2.1, hf.1]
    simp [sortDescBy, dedupBySig]

/-- Witness for `empty_keywords_empty_search`: the query `"ab"` (one short
token, no digits) extracts no keywords, and the search returns nothing. -/
theorem empty_keywords_witness :
    searchArticlesAndAppendices envA cfgDef "ab" = ([], []) :=
  empty_keywords_empty_search envA cfgDef "ab" (by decide)

/-! ### Claim C9 — malformed sub-structure payloads -/

set_option maxRecDepth 100000 in
unseal Rat.add Rat.mul Rat.sub Rat.inv in
/-- Claim C9: an unparseable `articles`/`appendices` payload is treated as
zero sub-structures for that field (the parse is total, never raising), the
article scan of such a document therefore matches nothing whatever the
payload, and a batch holding such a document completes with results
identical to the batch where the payload is an empty list — the healthy
companion document's matches are returned untouched. -/
theorem malformed_payload_recovered :
    (∀ s, parseSub (.malformed s) = []) ∧
    (∀ (env : Env) (query : String) (kws : List String) (tf : List (String × ℚ))
        (adaptive artTh : ℚ) (s : String) (d : Doc),
        d.articles = .malformed s →
        (parseSub d.articles).foldl (scanArticle env query kws tf adaptive artTh) ⟨[], []⟩
          = ⟨[], []⟩) ∧
    searchArticlesAndAppendices (env9 "not a json payload") cfgDef "qqqq 7" =
      searchArticlesAndAppendices env9z cfgDef "qqqq 7" ∧
    (searchArticlesAndAppendices env9z cfgDef "qqqq 7").1.map Doc.page_content = ["ggg"] := by
  refine ⟨fun s => rfl, ?_, ?_, ?_⟩
  · intro env query kws tf adaptive artTh s d hd
    rw [hd]
    rfl
  · decide
  · decide

/-- Witness for `malformed_payload_recovered` at a concrete malformed
document. -/
theorem malformed_payload_recovered_witness :
    (parseSub (badDoc "oops").articles).foldl
      (scanArticle envA "qqqq 7" ["qqqq"] [] 0 0) ⟨[], []⟩ = ⟨[], []⟩ :=
  malformed_payload_recovered.2.1 envA "qqqq 7" ["qqqq"] [] 0 0 "oops" (badDoc "oops") rfl

/-! ### Claim C7 — near-duplicate collapse -/

set_option maxRecDepth 200000 in
unseal Rat.add Rat.mul Rat.sub Rat.inv in
/-- Claim C7 counterexample: two near-duplicate documents — identical
stripped leading-200-character signatures, different full content — both
survive `_merge_results`, which keys its fusion map by full page content
only. -/
theorem merge_keeps_near_duplicates :
    contentSig dupX = contentSig dupY ∧
    dupX.page_content ≠ dupY.page_content ∧
    (mergeResults envA cfgDef [(dupX, 9/10), (dupY, 9/10)] []).1.length = 2 := by decide

theorem dedup_fold_facts :
    ∀ (l kept : List (Doc × ℚ)) (seen : List String),
      l.Pairwise (fun a b => b.2 ≤ a.2) →
      (∀ sg, seen.contains sg = true ↔ ∃ q ∈ kept, contentSig q.1 = sg) →
      kept.Pairwise (fun a b => contentSig a.1 ≠ contentSig b.1) →
      (∀ q ∈ kept, ∀ p ∈ l, p.2 ≤ q.2) →
      ((l.foldl (fun (acc : List (Doc × ℚ) × List String) p =>
          if acc.2.contains (contentSig p.1) then acc
          else (acc.1 ++ [p], contentSig p.1 :: acc.2)) (kept, seen)).1.Pairwise
            (fun a b => contentSig a.1 ≠ contentSig b.1) ∧
        (∀ p ∈ l, ∃ q ∈ (l.foldl (fun (acc : List (Doc × ℚ) × List String) p =>
          if acc.2.contains (contentSig p.1) then acc
          else (acc.1 ++ [p], contentSig p.1 :: acc.2)) (kept, seen)).1,
            contentSig q.1 = contentSig p.1 ∧ p.2 ≤ q.2) ∧
        (∀ q ∈ kept, q ∈ (l.foldl (fun (acc : List (Doc × ℚ) × List String) p =>
          if acc.2.contains (contentSig p.1) then acc
          else (acc.1 ++ [p], contentSig p.1 :: acc.2)) (kept, seen)).1)) := by
  intro l
  induction l with
  | nil =>
    intro kept seen _ _ hkp _
    exact ⟨hkp, fun p hp => absurd hp (List.not_mem_nil p), fun q hq => hq⟩
  | cons p0 rest ih =>
    intro kept seen hsort hseen hkp hdom
    rw [List.pairwise_cons] at hsort
    rw [List.foldl_cons]
    by_cases hc : seen.contains (contentSig p0.1) = true
    · simp only [hc, if_true, ite_true]
      have hres := ih kept seen hsort.2 hseen hkp
        (fun q hq p hp => hdom q hq p (List.mem_cons_of_mem p0 hp))
      refine ⟨hres.1, ?_, hres.2.2⟩
      intro p hp
      rcases List.mem_cons.mp hp with h1 | h2
      · obtain ⟨q, hq, hqs⟩ := (hseen (contentSig p0.1)).mp hc
        exact ⟨q, hres.2.2 q hq, h1 ▸ hqs, h1 ▸ hdom q hq p0 (List.mem_cons_self p0 rest)⟩
      · exact hres.2.1 p h2
    · simp only [hc, Bool.false_eq_true, if_false, ite_false]
      have hfresh : ∀ q ∈ kept, contentSig q.1 ≠ contentSig p0.1 := by
        intro q hq heq
        exact hc ((hseen (contentSig p0.1)).mpr ⟨q, hq, heq⟩)
      have hseen' : ∀ sg, (contentSig p0.1 :: seen).contains sg = true ↔
          ∃ q ∈ kept ++ [p0], contentSig q.1 = sg := by
        intro sg
        simp only [List.contains_cons, Bool.or_eq_true, beq_iff_eq, hseen sg]
        constructor
        · rintro (h1 | ⟨q, hq, hqs⟩)
          · exact ⟨p0, List.mem_append_right kept (List.mem_singleton.mpr rfl), h1.symm⟩
          · exact ⟨q, List.mem_append_left _ hq, hqs⟩
        · rintro ⟨q, hq, hqs⟩
          rcases List.mem_append.mp hq with h1 | h2
          · exact Or.inr ⟨q, h1, hqs⟩
          · exact Or.inl ((List.mem_singleton.mp h2 ▸ hqs).symm)
      have hkp' : (kept ++ [p0]).Pairwise (fun a b => contentSig a.1 ≠ contentSig b.1) := by
        rw [List.pairwise_append]
        exact ⟨hkp, List.pairwise_singleton _ _,
          fun a ha b hb => (List.mem_singleton.mp hb) ▸ hfresh a ha⟩
      have hdom' : ∀ q ∈ kept ++ [p0], ∀ p ∈ rest, p.2 ≤ q.2 := by
        intro q hq p hp
        rcases List.mem_append.mp hq with h1 | h2
        · exact hdom q h1 p (List.mem_cons_of_mem p0 hp)
        · exact (List.mem_singleton.mp h2) ▸ hsort.1 p hp
      have hres := ih (kept ++ [p0]) (contentSig p0.1 :: seen) hsort.2 hseen' hkp' hdom'
      refine ⟨hres.1, ?_, ?_⟩
      · intro p hp
        rcases List.mem_cons.mp hp with h1 | h2
        · refine ⟨p0, hres.2.2 p0 (List.mem_append_right kept (List.mem_singleton.mpr rfl)),
            h1 ▸ rfl, h1 ▸ le_refl _⟩
        · exact hres.2.1 p h2
      · intro q hq
        exact hres.2.2 q (List.mem_append_left _ hq)

/-- Claim C7 (amended): the near-duplicate collapse lives in the
hierarchical subsection search, not in the merger.  On the candidate list
already sorted descending by enhanced score, `dedupBySig` keeps at most one
document per stripped leading-200-character signature, and the survivor
scores at least as high as every duplicate it shadows; the merge stage
itself only fuses exact full-content duplicates (see the counterexample). -/
theorem dedup_collapses_by_signature (l : List (Doc × ℚ))
    (hsorted : l.Pairwise (fun a b => b.2 ≤ a.2)) :
    (dedupBySig l).Pairwise (fun a b => contentSig a.1 ≠ contentSig b.1) ∧
    ∀ p ∈ l, ∃ q ∈ dedupBySig l, contentSig q.1 = contentSig p.1 ∧ p.2 ≤ q.2 := by
  have h := dedup_fold_facts l [] [] hsorted
    (by intro sg; simp) (List.Pairwise.nil) (by intro q hq; exact absurd hq (List.not_mem_nil q))
  exact ⟨h.1, h.2.1⟩

set_option maxRecDepth 200000 in
unseal Rat.add Rat.mul Rat.sub Rat.inv in
/-- Witness for `dedup_collapses_by_signature` on a concrete sorted pair of
near-duplicates: only one survives and it dominates both scores. -/
theorem dedup_collapses_witness :
    (dedupBySig [(dupX, 9/10), (dupY, 2/5)]).Pairwise
      (fun a b => contentSig a.1 ≠ contentSig b.1) ∧
    ∀ p ∈ [(dupX, (9:ℚ)/10), (dupY, 2/5)], ∃ q ∈ dedupBySig [(dupX, 9/10), (dupY, 2/5)],
      contentSig q.1 = contentSig p.1 ∧ p.2 ≤ q.2 :=
  dedup_collapses_by_signature [(dupX, 9/10), (dupY, 2/5)] (by decide)

/-! ### Claim C5 — delegation on weak filters -/

set_option maxRecDepth 100000 in
unseal Rat.add Rat.mul Rat.sub Rat.inv in
/-- Claim C5 counterexample: with zero extracted filters the dense
retriever does delegate first, but when the subsection search comes back
empty it proceeds to run the weak (here empty) metadata-filter vector
query and returns its results — contradicting "delegates instead of
running a weak filter query". -/
theorem dense_delegation_counterexample :
    countFilters noFilters < 2 ∧
    searchArticlesAndAppendices envB cfgDef "qqqq 7" = ([], []) ∧
    denseRetrieval envB cfgDef "qqqq 7" noFilters ≠ ([], []) := by decide

/-- Claim C5 (amended): with fewer than 2 non-null filters the dense
retriever delegates to the hierarchical subsection search, and whenever
that search returns any document the dense retriever's answer is exactly
the best-match post-processing of the search result — no weak-filter
vector query occurs; only an empty delegation falls through to it. -/
theorem dense_delegates_when_search_nonempty (env : Env) (cfg : Config)
    (query : String) (f : MetadataFilters)
    (hc : countFilters f < 2)
    (hne : (searchArticlesAndAppendices env cfg query).1 ≠ []) :
    denseRetrieval env cfg query f =
      densePost env (searchArticlesAndAppendices env cfg query).1
        (searchArticlesAndAppendices env cfg query).2 := by
  have hne' : (searchArticlesAndAppendices env cfg query).1.isEmpty = false := by
    cases hsr : (searchArticlesAndAppendices env cfg query).1 with
    | nil => exact absurd hsr hne
    | cons a as => rfl
  unfold denseRetrieval
  simp only [if_pos hc, hne', Bool.not_false, if_true, ite_true]

set_option maxRecDepth 100000 in
unseal Rat.add Rat.mul Rat.sub Rat.inv in
/-- Witness for `dense_delegates_when_search_nonempty` on the concrete
environment where the subsection search finds a document. -/
theorem dense_delegates_witness :
    denseRetrieval envA cfgDef "qqqq 7" noFilters =
      densePost envA (searchArticlesAndAppendices envA cfgDef "qqqq 7").1
        (searchArticlesAndAppendices envA cfgDef "qqqq 7").2 :=
  dense_delegates_when_search_nonempty envA cfgDef "qqqq 7" noFilters
    (by decide) (by decide)

/-! ### Claim C2 — at most one document keeps matched sub-structures -/

theorem stripNonBest_get (docs : List Doc) (hIdx i : Nat)
    (hi : i < (stripNonBest docs hIdx).length) (hne : i ≠ hIdx) :
    ((stripNonBest docs hIdx).get ⟨i, hi⟩).matched_articles = none ∧
    ((stripNonBest docs hIdx).get ⟨i, hi⟩).matched_appendices = none := by
  unfold stripNonBest at hi ⊢
  rw [List.get_eq_getElem, List.getElem_mapIdx]
  simp [hne]

theorem hasPosMatch_has_field {d : Doc} (h : hasPosMatch d) :
    d.matched_articles ≠ none ∨ d.matched_appendices ≠ none := by
  rcases h with ⟨a, ha, _⟩ | ⟨p, hp, _⟩
  · left
    intro hn
    rw [hn] at ha
    exact absurd ha (List.not_mem_nil a)
  · right
    intro hn
    rw [hn] at hp
    exact absurd hp (List.not_mem_nil p)

theorem postMerge_strip (env : Env) (filtered : List (Doc × ℚ)) :
    ∃ k, ∀ i (hi : i < (postMerge env filtered).1.length), i ≠ k →
      ((postMerge env filtered).1.get ⟨i, hi⟩).matched_articles = none ∧
      ((postMerge env filtered).1.get ⟨i, hi⟩).matched_appendices = none := by
  cases filtered with
  | nil =>
    refine ⟨0, ?_⟩
    intro i hi
    simp [postMerge] at hi
  | cons p ps =>
    exact ⟨findHighestIdx ((p :: ps).map Prod.fst),
      fun i hi hne => stripNonBest_get _ _ i hi hne⟩

/-- Claim C2: in every merged result set there is a single index (the
highest-`subsection_score` document) outside of which every document has
both matched fields removed; consequently at most one document of the
merged set carries a non-empty matched list with a positive similarity
score. -/
theorem merge_at_most_one_matched (env : Env) (cfg : Config)
    (dense sparse : List (Doc × ℚ)) :
    (∃ k, ∀ i (hi : i < (mergeResults env cfg dense sparse).1.length), i ≠ k →
        ((mergeResults env cfg dense sparse).1.get ⟨i, hi⟩).matched_articles = none ∧
        ((mergeResults env cfg dense sparse).1.get ⟨i, hi⟩).matched_appendices = none) ∧
    (∀ i j (hi : i < (mergeResults env cfg dense sparse).1.length)
        (hj : j < (mergeResults env cfg dense sparse).1.length),
        hasPosMatch ((mergeResults env cfg dense sparse).1.get ⟨i, hi⟩) →
        hasPosMatch ((mergeResults env cfg dense sparse).1.get ⟨j, hj⟩) → i = j) := by
  have hstrip : ∃ k, ∀ i (hi : i < (mergeResults env cfg dense sparse).1.length), i ≠ k →
      ((mergeResults env cfg dense sparse).1.get ⟨i, hi⟩).matched_articles = none ∧
      ((mergeResults env cfg dense sparse).1.get ⟨i, hi⟩).matched_appendices = none := by
    simp only [mergeResults]
    exact postMerge_strip env _
  refine ⟨hstrip, ?_⟩
  obtain ⟨k, hk⟩ := hstrip
  have hat : ∀ i (hi : i < (mergeResults env cfg dense sparse).1.length),
      hasPosMatch ((mergeResults env cfg dense sparse).1.get ⟨i, hi⟩) → i = k := by
    intro i hi hp
    by_contra hik
    rcases hasPosMatch_has_field hp with h1 | h2
    · exact h1 (hk i hi hik).1
    · exact h2 (hk i hi hik).2
  intro i j hi hj hpi hpj
  exact (hat i hi hpi).trans (hat j hj hpj).symm

set_option maxRecDepth 100000 in
unseal Rat.add Rat.mul Rat.sub Rat.inv in
/-- Witness for `merge_at_most_one_matched` on a concrete merge where the
best document keeps a positively scored matched article. -/
theorem merge_at_most_one_matched_witness : (0 : ℕ) = 0 :=
  (merge_at_most_one_matched envA cfgDef [(dPos, 9/10), (dPlain, 9/10)] []).2 0 0
    (by decide) (by decide) (by decide) (by decide)

/-! ### Claims C8 and C3 — structural lemmas about the CompletenessGuarantor -/

theorem SubField.present_of_truthy {f : SubField} (h : f.truthy = true) :
    f.present = true := by
  cases f <;> simp_all [SubField.truthy, SubField.present]

theorem parseSub_ne_nil_facts {f : SubField} (h : parseSub f ≠ []) :
    f.present = true ∧ f.truthy = true := by
  cases f with
  | absent => exact absurd rfl h
  | malformed s => exact absurd rfl h
  | jsonStr v => exact ⟨rfl, rfl⟩
  | lst v =>
    refine ⟨rfl, ?_⟩
    cases v with
    | nil => exact absurd rfl h
    | cons a as => rfl

theorem extract_matched (d : Doc) :
    (extractSubsectionsFromStructured d).matched_articles = d.matched_articles ∧
    (extractSubsectionsFromStructured d).matched_appendices = d.matched_appendices := by
  unfold extractSubsectionsFromStructured
  cases hs : d.subsections with
  | absent => exact ⟨rfl, rfl⟩
  | malformed s => exact ⟨rfl, rfl⟩
  | dict arts apps => exact ⟨rfl, rfl⟩

theorem extract_articles_of_truthy (d : Doc) (h : d.articles.truthy = true) :
    (extractSubsectionsFromStructured d).articles = d.articles := by
  unfold extractSubsectionsFromStructured
  cases hs : d.subsections with
  | absent => rfl
  | malformed s => rfl
  | dict arts apps =>
    have hp := SubField.present_of_truthy h
    cases arts <;> cases apps <;> simp [h, hp]

theorem extract_appendices_of_truthy (d : Doc) (h : d.appendices.truthy = true) :
    (extractSubsectionsFromStructured d).appendices = d.appendices := by
  unfold extractSubsectionsFromStructured
  cases hs : d.subsections with
  | absent => rfl
  | malformed s => rfl
  | dict arts apps =>
    have hp := SubField.present_of_truthy h
    cases arts <;> cases apps <;> simp [h, hp]

theorem ensureArtSynth_articles (d : Doc) :
    (ensureArtSynth d).articles = d.articles ∧
    (ensureArtSynth d).appendices = d.appendices ∧
    (ensureArtSynth d).matched_appendices = d.matched_appendices := by
  unfold ensureArtSynth
  by_cases h1 : (d.articles.present && matchedFalsy d.matched_articles) = true
  · simp only [h1, if_true, ite_true]
    by_cases h2 : (!(parseSub d.articles).isEmpty) = true
    · simp only [h2, if_true, ite_true]
      all_goals exact ⟨by trivial, by trivial, by trivial⟩
    · simp only [h2, if_false, ite_false]
      all_goals exact ⟨by trivial, by trivial, by trivial⟩
  · simp only [h1, if_false, ite_false]
    all_goals exact ⟨by trivial, by trivial, by trivial⟩

theorem ensureAppSynth_fields (d : Doc) :
    (ensureAppSynth d).articles = d.articles ∧
    (ensureAppSynth d).appendices = d.appendices ∧
    (ensureAppSynth d).matched_articles = d.matched_articles := by
  unfold ensureAppSynth
  by_cases h1 : (d.appendices.present && matchedFalsy d.matched_appendices) = true
  · simp only [h1, if_true, ite_true]
    by_cases h2 : (!(parseSub d.appendices).isEmpty) = true
    · simp only [h2, if_true, ite_true]
      all_goals exact ⟨by trivial, by trivial, by trivial⟩
    · simp only [h2, if_false, ite_false]
      all_goals exact ⟨by trivial, by trivial, by trivial⟩
  · simp only [h1, if_false, ite_false]
    all_goals exact ⟨by trivial, by trivial, by trivial⟩

theorem ensureArtMerge_fields (env : Env) (d : Doc) :
    (ensureArtMerge env d).articles = d.articles ∧
    (ensureArtMerge env d).appendices = d.appendices ∧
    (ensureArtMerge env d).matched_appendices = d.matched_appendices := by
  unfold ensureArtMerge
  cases hm : d.matched_articles with
  | none => all_goals exact ⟨by trivial, by trivial, by trivial⟩
  | some ms =>
    by_cases h1 : d.articles.present = true
    · simp only [h1, if_true, ite_true]
      by_cases h2 : (!(parseSub d.articles).isEmpty) = true
      · simp only [h2, if_true, ite_true]
        all_goals exact ⟨by trivial, by trivial, by trivial⟩
      · simp only [h2, if_false, ite_false]
        all_goals exact ⟨by trivial, by trivial, by trivial⟩
    · simp only [h1, if_false, ite_false]
      all_goals exact ⟨by trivial, by trivial, by trivial⟩

theorem ensureAppMerge_matched_articles (env : Env) (d : Doc) :
    (ensureAppMerge env d).matched_articles = d.matched_articles := by
  unfold ensureAppMerge
  cases hm : d.matched_appendices with
  | none => rfl
  | some mps =>
    by_cases h1 : d.appendices.present = true
    · simp only [h1, if_true, ite_true]
      by_cases h2 : (!(parseSub d.appendices).isEmpty) = true
      · simp only [h2, if_true, ite_true]
      · simp only [h2, if_true, ite_true]
        rfl
    · simp only [h1, if_true, ite_true]
      rfl

theorem ensureArtSynth_matched_of_falsy (d : Doc)
    (hf : matchedFalsy d.matched_articles = true) (h : parseSub d.articles ≠ []) :
    (ensureArtSynth d).matched_articles = some ((parseSub d.articles).map zeroOut) := by
  have hp := (parseSub_ne_nil_facts h).1
  have hne : (parseSub d.articles).isEmpty = false := by
    cases hpa : parseSub d.articles with
    | nil => exact absurd hpa h
    | cons a as => rfl
  unfold ensureArtSynth
  simp [hp, hf, hne]

theorem ensureArtSynth_keep (d : Doc) (hf : matchedFalsy d.matched_articles = false) :
    ensureArtSynth d = d := by
  unfold ensureArtSynth
  simp [hf]

theorem ensureAppSynth_matched_of_falsy (d : Doc)
    (hf : matchedFalsy d.matched_appendices = true) (h : parseSub d.appendices ≠ []) :
    (ensureAppSynth d).matched_appendices = some ((parseSub d.appendices).map zeroOut) := by
  have hp := (parseSub_ne_nil_facts h).1
  have hne : (parseSub d.appendices).isEmpty = false := by
    cases hpa : parseSub d.appendices with
    | nil => exact absurd hpa h
    | cons a as => rfl
  unfold ensureAppSynth
  simp [hp, hf, hne]

theorem ensureAppSynth_keep (d : Doc) (hf : matchedFalsy d.matched_appendices = false) :
    ensureAppSynth d = d := by
  unfold ensureAppSynth
  simp [hf]

theorem ensureArtMerge_eq (env : Env) (d : Doc) (ms : List Sub)
    (hm : d.matched_articles = some ms) (h : parseSub d.articles ≠ []) :
    (ensureArtMerge env d).matched_articles =
      some (mergeMatchedArticles env.pyhash (parseSub d.articles) ms) := by
  have hp := (parseSub_ne_nil_facts h).1
  have hne : (parseSub d.articles).isEmpty = false := by
    cases hpa : parseSub d.articles with
    | nil => exact absurd hpa h
    | cons a as => rfl
  unfold ensureArtMerge
  rw [hm]
  simp [hp, hne]

theorem ensureAppMerge_eq (env : Env) (d : Doc) (mps : List Sub)
    (hm : d.matched_appendices = some mps) (h : parseSub d.appendices ≠ []) :
    (ensureAppMerge env d).matched_appendices =
      some (mergeMatchedAppendices env.pyhash (parseSub d.appendices) mps) := by
  have hp := (parseSub_ne_nil_facts h).1
  have hne : (parseSub d.appendices).isEmpty = false := by
    cases hpa : parseSub d.appendices with
    | nil => exact absurd hpa h
    | cons a as => rfl
  unfold ensureAppMerge
  rw [hm]
  simp [hp, hne]

/-- The matched-articles list produced by the CompletenessGuarantor on a
document whose raw articles parse non-empty: it is the numerically sorted
merge of the raw list into the prior matched list (the zero-scored full
list when no prior matches existed). -/
theorem ensureCompleteDoc_matched_articles (env : Env) (d : Doc)
    (h : parseSub d.articles ≠ []) :
    ∃ ms0, (ensureCompleteDoc env d).matched_articles =
        some (mergeMatchedArticles env.pyhash (parseSub d.articles) ms0) ∧
      ((matchedFalsy d.matched_articles = true → ms0 = (parseSub d.articles).map zeroOut) ∧
       (matchedFalsy d.matched_articles = false → d.matched_articles = some ms0)) := by
  have htr := (parseSub_ne_nil_facts h).2
  have hex : (extractSubsectionsFromStructured d).articles = d.articles :=
    extract_articles_of_truthy d htr
  have hexm := (extract_matched d).1
  set e := extractSubsectionsFromStructured d with he
  by_cases hf : matchedFalsy d.matched_articles = true
  · have h1 : (ensureArtSynth e).matched_articles =
        some ((parseSub d.articles).map zeroOut) := by
      rw [← hex]
      exact ensureArtSynth_matched_of_falsy e (by rw [hexm]; exact hf) (by rw [hex]; exact h)
    refine ⟨(parseSub d.articles).map zeroOut, ?_, fun _ => rfl,
      fun hc => absurd (hf.symm.trans hc) (by decide)⟩
    unfold ensureCompleteDoc
    rw [ensureAppMerge_matched_articles, ← he]
    have harts2 : (ensureAppSynth (ensureArtSynth e)).articles = d.articles := by
      rw [(ensureAppSynth_fields (ensureArtSynth e)).1, (ensureArtSynth_articles e).1, hex]
    rw [ensureArtMerge_eq env _ ((parseSub d.articles).map zeroOut)
      (by rw [(ensureAppSynth_fields (ensureArtSynth e)).2.2]; exact h1)
      (by rw [harts2]; exact h), harts2]
  · have hfb : matchedFalsy d.matched_articles = false := Bool.eq_false_iff.mpr hf
    obtain ⟨ms0, hms0⟩ : ∃ ms0, d.matched_articles = some ms0 := by
      cases hm : d.matched_articles with
      | none => rw [hm] at hfb; exact absurd hfb (by decide)
      | some ms => exact ⟨ms, rfl⟩
    have h1 : (ensureArtSynth e).matched_articles = some ms0 := by
      rw [ensureArtSynth_keep e (by rw [hexm]; exact hfb), hexm]
      exact hms0
    refine ⟨ms0, ?_, fun hc => absurd hc (by rw [hfb]; exact Bool.false_ne_true), fun _ => hms0⟩
    unfold ensureCompleteDoc
    rw [ensureAppMerge_matched_articles, ← he]
    have harts2 : (ensureAppSynth (ensureArtSynth e)).articles = d.articles := by
      rw [(ensureAppSynth_fields (ensureArtSynth e)).1, (ensureArtSynth_articles e).1, hex]
    rw [ensureArtMerge_eq env _ ms0
      (by rw [(ensureAppSynth_fields (ensureArtSynth e)).2.2]; exact h1)
      (by rw [harts2]; exact h), harts2]

/-- The matched-appendices list produced by the CompletenessGuarantor on a
document whose raw appendices parse non-empty. -/
theorem ensureCompleteDoc_matched_appendices (env : Env) (d : Doc)
    (h : parseSub d.appendices ≠ []) :
    ∃ mp0, (ensureCompleteDoc env d).matched_appendices =
        some (mergeMatchedAppendices env.pyhash (parseSub d.appendices) mp0) ∧
      ((matchedFalsy d.matched_appendices = true → mp0 = (parseSub d.appendices).map zeroOut) ∧
       (matchedFalsy d.matched_appendices = false → d.matched_appendices = some mp0)) := by
  have htr := (parseSub_ne_nil_facts h).2
  have hex : (extractSubsectionsFromStructured d).appendices = d.appendices :=
    extract_appendices_of_truthy d htr
  have hexm := (extract_matched d).2
  set e := extractSubsectionsFromStructured d with he
  have ha1app : (ensureArtSynth e).appendices = d.appendices := by
    rw [(ensureArtSynth_articles e).2.1, hex]
  have ha1m : (ensureArtSynth e).matched_appendices = d.matched_appendices := by
    rw [(ensureArtSynth_articles e).2.2, hexm]
  by_cases hf : matchedFalsy d.matched_appendices = true
  · have h1 := ensureAppSynth_matched_of_falsy (ensureArtSynth e)
      (by rw [ha1m]; exact hf) (by rw [ha1app]; exact h)
    rw [ha1app] at h1
    refine ⟨(parseSub d.appendices).map zeroOut, ?_, fun _ => rfl,
      fun hc => absurd (hf.symm.trans hc) (by decide)⟩
    unfold ensureCompleteDoc
    rw [← he]
    have happs3 : (ensureArtMerge env (ensureAppSynth (ensureArtSynth e))).appendices
        = d.appendices := by
      rw [(ensureArtMerge_fields env _).2.1, (ensureAppSynth_fields _).2.1, ha1app]
    rw [ensureAppMerge_eq env _ ((parseSub d.appendices).map zeroOut)
      (by rw [(ensureArtMerge_fields env _).2.2]; exact h1)
      (by rw [happs3]; exact h), happs3]
  · have hfb : matchedFalsy d.matched_appendices = false := Bool.eq_false_iff.mpr hf
    obtain ⟨mp0, hmp0⟩ : ∃ mp0, d.matched_appendices = some mp0 := by
      cases hm : d.matched_appendices with
      | none => rw [hm] at hfb; exact absurd hfb (by decide)
      | some mp => exact ⟨mp, rfl⟩
    have h1 : (ensureAppSynth (ensureArtSynth e)).matched_appendices = some mp0 := by
      rw [ensureAppSynth_keep _ (by rw [ha1m]; exact hfb), ha1m]
      exact hmp0
    refine ⟨mp0, ?_, fun hc => absurd (hfb.symm.trans hc) (by decide), fun _ => hmp0⟩
    unfold ensureCompleteDoc
    rw [← he]
    have happs3 : (ensureArtMerge env (ensureAppSynth (ensureArtSynth e))).appendices
        = d.appendices := by
      rw [(ensureArtMerge_fields env _).2.1, (ensureAppSynth_fields _).2.1, ha1app]
    rw [ensureAppMerge_eq env _ mp0
      (by rw [(ensureArtMerge_fields env _).2.2]; exact h1)
      (by rw [happs3]; exact h), happs3]

/-- Claim C8: after the CompletenessGuarantor finalizes a document, each
sub-structure kind whose raw data parses to a non-empty list comes out
sorted: the matched articles in ascending order of the leading numeric
token of `article_number` whenever raw articles exist, and likewise the
matched appendices by `appendix_number` whenever raw appendices exist —
independently of each other, entries without a numeric token ordered
last. -/
theorem completeness_sorted_by_numeric (env : Env) (d : Doc) :
    (parseSub d.articles ≠ [] →
      ((ensureCompleteDoc env d).matched_articles.getD []).Pairwise artNumOrder) ∧
    (parseSub d.appendices ≠ [] →
      ((ensureCompleteDoc env d).matched_appendices.getD []).Pairwise appNumOrder) := by
  constructor
  · intro ha
    obtain ⟨ms0, hms, -⟩ := ensureCompleteDoc_matched_articles env d ha
    rw [hms]
    simp only [Option.getD_some]
    exact pairwise_sortAscNum _ _
  · intro hp
    obtain ⟨mp0, hmp, -⟩ := ensureCompleteDoc_matched_appendices env d hp
    rw [hmp]
    simp only [Option.getD_some]
    exact pairwise_sortAscNum _ _

/-- Witness for `completeness_sorted_by_numeric` on a document with
unsorted raw articles (numbers 7 and 2) and two titled appendices, both
implications discharged at the concrete document. -/
theorem completeness_sorted_witness :
    parseSub dComplete.articles ≠ [] ∧ parseSub dComplete.appendices ≠ [] ∧
    ((ensureCompleteDoc envA dComplete).matched_articles.getD []).Pairwise artNumOrder ∧
    ((ensureCompleteDoc envA dComplete).matched_appendices.getD []).Pairwise appNumOrder :=
  ⟨by decide, by decide,
    (completeness_sorted_by_numeric envA dComplete).1 (by decide),
    (completeness_sorted_by_numeric envA dComplete).2 (by decide)⟩

/-! ### Claim C3 — counting lemmas for the add-missing merges -/

theorem strEmpty_false_of_ne {s : String} (h : s ≠ "") : strEmpty s = false := by
  cases s with
  | mk l =>
    cases l with
    | nil => exact absurd rfl h
    | cons c cs => rfl

theorem artKey_zeroOut (a : Sub) : artKey (zeroOut a) = artKey a := rfl

theorem appTitleKey_zeroOut (p : Sub) : appTitleKey (zeroOut p) = appTitleKey p := rfl

theorem string_mk_inj {a b : String} (h : a.data = b.data) : a = b := by
  cases a
  cases b
  exact congrArg String.mk h

theorem title_key_inj {a b : String} (h : ("title_" ++ a) = ("title_" ++ b)) : a = b := by
  have hd := congrArg String.data h
  rw [String.data_append, String.data_append] at hd
  have e : "title_".data = ['t', 'i', 't', 'l', 'e', '_'] := rfl
  rw [e] at hd
  simp only [List.cons_append, List.cons.injEq, true_and, List.nil_append] at hd
  exact string_mk_inj (by simpa using hd)

theorem textKey_ne_titleKey (a b : String) : ("text_" ++ a) ≠ ("title_" ++ b) := by
  intro h
  have hd := congrArg String.data h
  rw [String.data_append, String.data_append] at hd
  have e1 : "text_".data = ['t', 'e', 'x', 't', '_'] := rfl
  have e2 : "title_".data = ['t', 'i', 't', 'l', 'e', '_'] := rfl
  rw [e1, e2] at hd
  simp at hd

theorem bool_eq_of_iff {a b : Bool} (h : a = true ↔ b = true) : a = b := by
  cases a <;> cases b <;> simp_all

theorem articleFoldStep_of_key (pyhash : String → Int) (acc : List Sub × List String)
    (r : Sub) (hk : artKey r ≠ "") :
    articleFoldStep pyhash acc r =
      if acc.2.contains (artKey r) then acc
      else (acc.1 ++ [zeroOut r], artKey r :: acc.2) := by
  unfold articleFoldStep
  simp [strEmpty_false_of_ne hk]

theorem articleFoldStep_fst (pyhash : String → Int) (acc : List Sub × List String) (r : Sub) :
    (articleFoldStep pyhash acc r).1 = acc.1 ∨
    (articleFoldStep pyhash acc r).1 = acc.1 ++ [zeroOut r] := by
  unfold articleFoldStep
  dsimp only
  repeat' split
  all_goals first
    | exact Or.inl rfl
    | exact Or.inr rfl

theorem articleFold_mem (pyhash : String → Int) :
    ∀ (raws : List Sub) (acc : List Sub × List String) (x : Sub),
      x ∈ (raws.foldl (articleFoldStep pyhash) acc).1 →
      x ∈ acc.1 ∨ ∃ a, a ∈ raws ∧ x = zeroOut a := by
  intro raws
  induction raws with
  | nil => intro acc x hx; exact Or.inl hx
  | cons r rest ih =>
    intro acc x hx
    rw [List.foldl_cons] at hx
    rcases ih (articleFoldStep pyhash acc r) x hx with h1 | ⟨a, ha, he⟩
    · rcases articleFoldStep_fst pyhash acc r with hs | hs
      · rw [hs] at h1
        exact Or.inl h1
      · rw [hs] at h1
        rcases List.mem_append.mp h1 with h2 | h2
        · exact Or.inl h2
        · exact Or.inr ⟨r, List.mem_cons_self r rest, List.mem_singleton.mp h2⟩
    · exact Or.inr ⟨a, List.mem_cons_of_mem r ha, he⟩

theorem articleFold_length (pyhash : String → Int) :
    ∀ (raws : List Sub) (acc : List Sub) (L : List String),
      (∀ a ∈ raws, artKey a ≠ "") → (raws.map artKey).Nodup →
      ((raws.foldl (articleFoldStep pyhash) (acc, L)).1).length =
        acc.length + (raws.filter (fun a => !L.contains (artKey a))).length := by
  intro raws
  induction raws with
  | nil => intro acc L _ _; simp
  | cons r rest ih =>
    intro acc L hknz hnd
    rw [List.map_cons, List.nodup_cons] at hnd
    have hkr : artKey r ≠ "" := hknz r (List.mem_cons_self r rest)
    rw [List.foldl_cons, articleFoldStep_of_key pyhash (acc, L) r hkr]
    by_cases hc : L.contains (artKey r) = true
    · rw [if_pos hc]
      rw [ih acc L (fun a ha => hknz a (List.mem_cons_of_mem r ha)) hnd.2]
      have : (List.filter (fun a => !L.contains (artKey a)) (r :: rest)) =
          List.filter (fun a => !L.contains (artKey a)) rest := by
        rw [List.filter_cons, hc]
        rfl
      rw [this]
    · rw [if_neg hc]
      rw [ih (acc ++ [zeroOut r]) (artKey r :: L)
        (fun a ha => hknz a (List.mem_cons_of_mem r ha)) hnd.2]
      have hcongr : List.filter (fun a => !(artKey r :: L).contains (artKey a)) rest =
          List.filter (fun a => !L.contains (artKey a)) rest := by
        apply List.filter_congr
        intro a ha
        have hne : artKey a ≠ artKey r := by
          intro he
          exact hnd.1 (he ▸ List.mem_map_of_mem artKey ha)
        rw [List.contains_cons]
        simp [hne]
      rw [hcongr]
      have hcf : L.contains (artKey r) = false := Bool.eq_false_iff.mpr hc
      have hfc : (List.filter (fun a => !L.contains (artKey a)) (r :: rest)) =
          r :: List.filter (fun a => !L.contains (artKey a)) rest := by
        rw [List.filter_cons, hcf]
        rfl
      rw [hfc]
      simp only [List.length_append, List.length_cons, List.length_nil]
      omega

theorem artLookup0_contains (ms : List Sub) (hk : ∀ m ∈ ms, artKey m ≠ "") (x : String) :
    ((artLookup0 ms).contains x = true) ↔ x ∈ ms.map artKey := by
  have aux : ∀ (l : List Sub) (L0 : List String), (∀ m ∈ l, artKey m ≠ "") →
      (((l.foldl (fun L m => let k := artKey m; if !strEmpty k then k :: L else L) L0).contains x
        = true) ↔ (L0.contains x = true ∨ x ∈ l.map artKey)) := by
    intro l
    induction l with
    | nil => intro L0 _; simp
    | cons m rest ih =>
      intro L0 hk0
      rw [List.foldl_cons]
      have hm : artKey m ≠ "" := hk0 m (List.mem_cons_self m rest)
      simp only [strEmpty_false_of_ne hm, Bool.not_false, if_true, ite_true]
      rw [ih (artKey m :: L0) (fun a ha => hk0 a (List.mem_cons_of_mem m ha))]
      rw [List.contains_cons]
      simp only [List.map_cons, List.mem_cons, Bool.or_eq_true, beq_iff_eq]
      tauto
  have := aux ms [] hk
  simpa [artLookup0] using this

theorem length_filter_contains (keyF : Sub → String) (raws : List Sub) (ks : List String)
    (hnd : (raws.map keyF).Nodup) (hks : ks.Nodup) (hsub : ∀ x ∈ ks, x ∈ raws.map keyF) :
    (raws.filter (fun a => ks.contains (keyF a))).length = ks.length := by
  rw [← List.countP_eq_length_filter]
  have h1 : raws.countP (fun a => ks.contains (keyF a)) =
      (raws.map keyF).countP (fun k => ks.contains k) := by
    rw [List.countP_map]
    rfl
  rw [h1, List.countP_eq_length_filter]
  have hndf := hnd.filter (fun k => ks.contains k)
  have hperm : ((raws.map keyF).filter (fun k => ks.contains k)).Perm ks := by
    rw [List.perm_ext_iff_of_nodup hndf hks]
    intro a
    rw [List.mem_filter]
    constructor
    · rintro ⟨-, hc⟩
      simpa using hc
    · intro ha
      exact ⟨hsub a ha, by simpa using ha⟩
  exact hperm.length_eq

theorem strEmpty_empty_eq : strEmpty "" = true := rfl

theorem mergeMatchedArticles_length (pyhash : String → Int) (raws ms : List Sub)
    (hAk : ∀ a ∈ raws, artKey a ≠ "") (hAnd : (raws.map artKey).Nodup)
    (hmk : ∀ m ∈ ms, artKey m ≠ "") (hmnd : (ms.map artKey).Nodup)
    (hsub : ∀ x ∈ ms.map artKey, x ∈ raws.map artKey) :
    (mergeMatchedArticles pyhash raws ms).length = raws.length := by
  unfold mergeMatchedArticles
  rw [sortAscNum_length]
  rw [articleFold_length pyhash raws ms (artLookup0 ms) hAk hAnd]
  have hfil : raws.filter (fun a => !(artLookup0 ms).contains (artKey a)) =
      raws.filter (fun a => !(ms.map artKey).contains (artKey a)) := by
    apply List.filter_congr
    intro a _
    have h1 : (artLookup0 ms).contains (artKey a) = (ms.map artKey).contains (artKey a) :=
      bool_eq_of_iff ((artLookup0_contains ms hmk (artKey a)).trans (by simp))
    rw [h1]
  rw [hfil]
  have h2 := @List.length_eq_length_filter_add _ raws
    (fun a => (ms.map artKey).contains (artKey a))
  rw [length_filter_contains artKey raws (ms.map artKey) hAnd hmnd hsub] at h2
  have h3 := List.length_map ms artKey
  omega

theorem mergeMatchedArticles_mem (pyhash : String → Int) (raws ms : List Sub) (x : Sub)
    (hx : x ∈ mergeMatchedArticles pyhash raws ms) :
    x ∈ ms ∨ ∃ a, a ∈ raws ∧ x = zeroOut a := by
  unfold mergeMatchedArticles at hx
  have hx2 := (sortAscNum_perm (fun a => extractNumericPart (a.article_number.getD "")) _).mem_iff.mp hx
  exact articleFold_mem pyhash raws (ms, artLookup0 ms) x hx2

theorem appLookup0_contains (pyhash : String → Int) (mps : List Sub)
    (hk : ∀ m ∈ mps, appTitleKey m ≠ "" ∧ appNumKey m = "") (x : String) :
    ((appLookup0 pyhash mps).contains x = true) ↔
      x ∈ mps.map (fun m => "title_" ++ appTitleKey m) := by
  have aux : ∀ (l : List Sub) (L0 : List String),
      (∀ m ∈ l, appTitleKey m ≠ "" ∧ appNumKey m = "") →
      (((l.foldl (appKeyStep pyhash) L0).contains x = true) ↔
        (L0.contains x = true ∨ x ∈ l.map (fun m => "title_" ++ appTitleKey m))) := by
    intro l
    induction l with
    | nil => intro L0 _; simp
    | cons m rest ih =>
      intro L0 hk0
      rw [List.foldl_cons]
      have hm := hk0 m (List.mem_cons_self m rest)
      have hstep : appKeyStep pyhash L0 m = ("title_" ++ appTitleKey m) :: L0 := by
        unfold appKeyStep
        simp only [strEmpty_false_of_ne hm.1, hm.2, strEmpty_empty_eq, Bool.not_false,
          Bool.not_true, Bool.false_and, if_true, if_false, ite_true, ite_false]
        rfl
      rw [hstep]
      rw [ih (("title_" ++ appTitleKey m) :: L0)
        (fun a ha => hk0 a (List.mem_cons_of_mem m ha))]
      rw [List.contains_cons]
      simp only [List.map_cons, List.mem_cons, Bool.or_eq_true, beq_iff_eq]
      tauto
  exact aux mps [] hk |>.trans (by simp)

theorem appLookup0_inv (pyhash : String → Int) (mps : List Sub)
    (hk : ∀ m ∈ mps, appTitleKey m ≠ "" ∧ appNumKey m = "") :
    ∀ y ∈ appLookup0 pyhash mps, ∃ s, s ≠ "" ∧ y = "title_" ++ s := by
  intro y hy
  have hc : (appLookup0 pyhash mps).contains y = true := by simpa using hy
  have hmem := (appLookup0_contains pyhash mps hk y).mp hc
  rcases List.mem_map.mp hmem with ⟨m, hm, he⟩
  exact ⟨appTitleKey m, (hk m hm).1, he.symm⟩

theorem appendixFoldStep_of_clean (pyhash : String → Int) (acc : List Sub × List String)
    (p : Sub) (ht : appTitleKey p ≠ "") (hn : appNumKey p = "")
    (hL : ∀ y ∈ acc.2, ∃ s, s ≠ "" ∧ y = "title_" ++ s) :
    appendixFoldStep pyhash acc p =
      if acc.2.contains ("title_" ++ appTitleKey p) then acc
      else (acc.1 ++ [zeroOut p], ("title_" ++ appTitleKey p) :: acc.2) := by
  have htext : ∀ tx : String, textHashKey pyhash tx ∉ acc.2 := by
    intro tx hmem
    obtain ⟨s, hs, he⟩ := hL _ hmem
    unfold textHashKey at he
    exact absurd he (textKey_ne_titleKey _ s)
  unfold appendixFoldStep
  by_cases hc : ("title_" ++ appTitleKey p) ∈ acc.2
  · cases hpt : p.text with
    | none => simp [strEmpty_false_of_ne ht, hn, strEmpty_empty_eq, hc]
    | some tx => simp [strEmpty_false_of_ne ht, hn, strEmpty_empty_eq, hc, htext tx]
  · cases hpt : p.text with
    | none => simp [strEmpty_false_of_ne ht, hn, strEmpty_empty_eq, hc]
    | some tx => simp [strEmpty_false_of_ne ht, hn, strEmpty_empty_eq, hc, htext tx]

theorem appendixFoldStep_fst (pyhash : String → Int) (acc : List Sub × List String) (p : Sub) :
    (appendixFoldStep pyhash acc p).1 = acc.1 ∨
    (appendixFoldStep pyhash acc p).1 = acc.1 ++ [zeroOut p] := by
  unfold appendixFoldStep
  dsimp only
  repeat' split
  all_goals first
    | exact Or.inl rfl
    | exact Or.inr rfl

theorem appendixFold_mem (pyhash : String → Int) :
    ∀ (rapps : List Sub) (acc : List Sub × List String) (x : Sub),
      x ∈ (rapps.foldl (appendixFoldStep pyhash) acc).1 →
      x ∈ acc.1 ∨ ∃ a, a ∈ rapps ∧ x = zeroOut a := by
  intro rapps
  induction rapps with
  | nil => intro acc x hx; exact Or.inl hx
  | cons r rest ih =>
    intro acc x hx
    rw [List.foldl_cons] at hx
    rcases ih (appendixFoldStep pyhash acc r) x hx with h1 | ⟨a, ha, he⟩
    · rcases appendixFoldStep_fst pyhash acc r with hs | hs
      · rw [hs] at h1
        exact Or.inl h1
      · rw [hs] at h1
        rcases List.mem_append.mp h1 with h2 | h2
        · exact Or.inl h2
        · exact Or.inr ⟨r, List.mem_cons_self r rest, List.mem_singleton.mp h2⟩
    · exact Or.inr ⟨a, List.mem_cons_of_mem r ha, he⟩

theorem appendixFold_length (pyhash : String → Int) :
    ∀ (rapps : List Sub) (acc : List Sub) (L : List String),
      (∀ p ∈ rapps, appTitleKey p ≠ "" ∧ appNumKey p = "") →
      (rapps.map appTitleKey).Nodup →
      (∀ y ∈ L, ∃ s, s ≠ "" ∧ y = "title_" ++ s) →
      ((rapps.foldl (appendixFoldStep pyhash) (acc, L)).1).length =
        acc.length +
          (rapps.filter (fun p => !L.contains ("title_" ++ appTitleKey p))).length := by
  intro rapps
  induction rapps with
  | nil => intro acc L _ _ _; simp
  | cons r rest ih =>
    intro acc L hknz hnd hL
    rw [List.map_cons, List.nodup_cons] at hnd
    have hkr := hknz r (List.mem_cons_self r rest)
    rw [List.foldl_cons, appendixFoldStep_of_clean pyhash (acc, L) r hkr.1 hkr.2 hL]
    by_cases hc : L.contains ("title_" ++ appTitleKey r) = true
    · rw [if_pos hc]
      rw [ih acc L (fun a ha => hknz a (List.mem_cons_of_mem r ha)) hnd.2 hL]
      have hsame : (List.filter (fun p => !L.contains ("title_" ++ appTitleKey p)) (r :: rest)) =
          List.filter (fun p => !L.contains ("title_" ++ appTitleKey p)) rest := by
        rw [List.filter_cons, hc]
        rfl
      rw [hsame]
    · rw [if_neg hc]
      have hL2 : ∀ y ∈ ("title_" ++ appTitleKey r) :: L, ∃ s, s ≠ "" ∧ y = "title_" ++ s := by
        intro y hy
        rcases List.mem_cons.mp hy with h | h
        · exact ⟨appTitleKey r, hkr.1, h⟩
        · exact hL y h
      rw [ih (acc ++ [zeroOut r]) (("title_" ++ appTitleKey r) :: L)
        (fun a ha => hknz a (List.mem_cons_of_mem r ha)) hnd.2 hL2]
      have hcongr :
          List.filter
            (fun p => !(("title_" ++ appTitleKey r) :: L).contains ("title_" ++ appTitleKey p))
            rest =
          List.filter (fun p => !L.contains ("title_" ++ appTitleKey p)) rest := by
        apply List.filter_congr
        intro a ha
        have hne : ("title_" ++ appTitleKey a) ≠ ("title_" ++ appTitleKey r) := by
          intro he
          refine hnd.1 ?_
          rw [← title_key_inj he]
          exact List.mem_map_of_mem appTitleKey ha
        rw [List.contains_cons]
        simp [hne]
      rw [hcongr]
      have hcf : L.contains ("title_" ++ appTitleKey r) = false := Bool.eq_false_iff.mpr hc
      have hfc : (List.filter (fun p => !L.contains ("title_" ++ appTitleKey p)) (r :: rest)) =
          r :: List.filter (fun p => !L.contains ("title_" ++ appTitleKey p)) rest := by
        rw [List.filter_cons, hcf]
        rfl
      rw [hfc]
      simp only [List.length_append, List.length_cons, List.length_nil]
      omega

theorem mergeMatchedAppendices_length (pyhash : String → Int) (rapps mps : List Sub)
    (hAk : ∀ p ∈ rapps, appTitleKey p ≠ "" ∧ appNumKey p = "")
    (hAnd : (rapps.map appTitleKey).Nodup)
    (hmk : ∀ m ∈ mps, appTitleKey m ≠ "" ∧ appNumKey m = "")
    (hmnd : (mps.map appTitleKey).Nodup)
    (hsub : ∀ x ∈ mps.map appTitleKey, x ∈ rapps.map appTitleKey) :
    (mergeMatchedAppendices pyhash rapps mps).length = rapps.length := by
  unfold mergeMatchedAppendices
  rw [sortAscNum_length]
  rw [appendixFold_length pyhash rapps mps (appLookup0 pyhash mps) hAk hAnd
    (appLookup0_inv pyhash mps hmk)]
  have hfil :
      rapps.filter (fun p => !(appLookup0 pyhash mps).contains ("title_" ++ appTitleKey p)) =
      rapps.filter (fun p => !(mps.map appTitleKey).contains (appTitleKey p)) := by
    apply List.filter_congr
    intro a _
    have hIff : ("title_" ++ appTitleKey a) ∈ mps.map (fun m => "title_" ++ appTitleKey m) ↔
        (mps.map appTitleKey).contains (appTitleKey a) = true := by
      constructor
      · intro hmem
        rcases List.mem_map.mp hmem with ⟨m, hm, he⟩
        have hk := title_key_inj he
        have : appTitleKey a ∈ mps.map appTitleKey := by
          rw [← hk]
          exact List.mem_map_of_mem appTitleKey hm
        simpa using this
      · intro hcm
        have hmm : appTitleKey a ∈ mps.map appTitleKey := by simpa using hcm
        rcases List.mem_map.mp hmm with ⟨m, hm, he⟩
        exact List.mem_map.mpr ⟨m, hm, by rw [he]⟩
    have h1 : (appLookup0 pyhash mps).contains ("title_" ++ appTitleKey a)
        = (mps.map appTitleKey).contains (appTitleKey a) :=
      bool_eq_of_iff
        ((appLookup0_contains pyhash mps hmk ("title_" ++ appTitleKey a)).trans hIff)
    rw [h1]
  rw [hfil]
  have h2 := @List.length_eq_length_filter_add _ rapps
    (fun p => (mps.map appTitleKey).contains (appTitleKey p))
  rw [length_filter_contains appTitleKey rapps (mps.map appTitleKey) hAnd hmnd hsub] at h2
  have h3 := List.length_map mps appTitleKey
  omega

theorem mergeMatchedAppendices_mem (pyhash : String → Int) (rapps mps : List Sub) (x : Sub)
    (hx : x ∈ mergeMatchedAppendices pyhash rapps mps) :
    x ∈ mps ∨ ∃ a, a ∈ rapps ∧ x = zeroOut a := by
  unfold mergeMatchedAppendices at hx
  have hx2 :=
    (sortAscNum_perm (fun p => extractNumericPart (p.appendix_number.getD "")) _).mem_iff.mp hx
  exact appendixFold_mem pyhash rapps (mps, appLookup0 pyhash mps) x hx2

theorem completeness_articles_side (env : Env) (d : Doc)
    (hAne : parseSub d.articles ≠ [])
    (hAk : ∀ a ∈ parseSub d.articles, artKey a ≠ "")
    (hAnd : ((parseSub d.articles).map artKey).Nodup)
    (hMA : matchedFalsy d.matched_articles = true ∨
      ∃ ms, d.matched_articles = some ms ∧ (∀ m ∈ ms, artKey m ≠ "") ∧
        (ms.map artKey).Nodup ∧ ∀ x ∈ ms.map artKey, x ∈ (parseSub d.articles).map artKey) :
    ((ensureCompleteDoc env d).matched_articles.getD []).length =
        (parseSub d.articles).length ∧
    ∀ x ∈ (ensureCompleteDoc env d).matched_articles.getD [],
        (∃ ms, d.matched_articles = some ms ∧ x ∈ ms) ∨
        (x.similarity_score = some 0 ∧ x.is_high_match = some false) := by
  obtain ⟨ms0, hms, hms1, hms2⟩ := ensureCompleteDoc_matched_articles env d hAne
  rw [hms, Option.getD_some]
  by_cases hf : matchedFalsy d.matched_articles = true
  · have he := hms1 hf
    subst he
    have hmm : ((parseSub d.articles).map zeroOut).map artKey =
        (parseSub d.articles).map artKey := by
      rw [List.map_map]
      rfl
    constructor
    · apply mergeMatchedArticles_length env.pyhash _ _ hAk hAnd
      · intro m hm
        rcases List.mem_map.mp hm with ⟨a, ha, he2⟩
        rw [← he2]
        exact hAk a ha
      · rw [hmm]
        exact hAnd
      · rw [hmm]
        intro x hx
        exact hx
    · intro x hx
      rcases mergeMatchedArticles_mem env.pyhash _ _ x hx with h1 | ⟨a, ha, he2⟩
      · rcases List.mem_map.mp h1 with ⟨a, ha, he2⟩
        right
        rw [← he2]
        exact ⟨rfl, rfl⟩
      · right
        rw [he2]
        exact ⟨rfl, rfl⟩
  · have hfb : matchedFalsy d.matched_articles = false := Bool.eq_false_iff.mpr hf
    have hsome := hms2 hfb
    rcases hMA with h | ⟨ms, hms2', hk, hnd, hsubs⟩
    · exact absurd (hfb.symm.trans h) (by decide)
    · have hmseq : ms = ms0 := by
        rw [hms2'] at hsome
        exact Option.some.inj hsome
      subst hmseq
      constructor
      · exact mergeMatchedArticles_length env.pyhash _ _ hAk hAnd hk hnd hsubs
      · intro x hx
        rcases mergeMatchedArticles_mem env.pyhash _ _ x hx with h1 | ⟨a, ha, he2⟩
        · exact Or.inl ⟨ms, hms2', h1⟩
        · right
          rw [he2]
          exact ⟨rfl, rfl⟩

theorem completeness_appendices_side (env : Env) (d : Doc)
    (hPne : parseSub d.appendices ≠ [])
    (hPk : ∀ p ∈ parseSub d.appendices, appTitleKey p ≠ "" ∧ appNumKey p = "")
    (hPnd : ((parseSub d.appendices).map appTitleKey).Nodup)
    (hMP : matchedFalsy d.matched_appendices = true ∨
      ∃ mps, d.matched_appendices = some mps ∧
        (∀ m ∈ mps, appTitleKey m ≠ "" ∧ appNumKey m = "") ∧
        (mps.map appTitleKey).Nodup ∧
        ∀ x ∈ mps.map appTitleKey, x ∈ (parseSub d.appendices).map appTitleKey) :
    ((ensureCompleteDoc env d).matched_appendices.getD []).length =
        (parseSub d.appendices).length ∧
    ∀ x ∈ (ensureCompleteDoc env d).matched_appendices.getD [],
        (∃ mps, d.matched_appendices = some mps ∧ x ∈ mps) ∨
        (x.similarity_score = some 0 ∧ x.is_high_match = some false) := by
  obtain ⟨mp0, hmp, hmp1, hmp2⟩ := ensureCompleteDoc_matched_appendices env d hPne
  rw [hmp, Option.getD_some]
  by_cases hf : matchedFalsy d.matched_appendices = true
  · have he := hmp1 hf
    subst he
    have hmm : ((parseSub d.appendices).map zeroOut).map appTitleKey =
        (parseSub d.appendices).map appTitleKey := by
      rw [List.map_map]
      rfl
    constructor
    · apply mergeMatchedAppendices_length env.pyhash _ _ hPk hPnd
      · intro m hm
        rcases List.mem_map.mp hm with ⟨a, ha, he2⟩
        rw [← he2]
        exact hPk a ha
      · rw [hmm]
        exact hPnd
      · rw [hmm]
        intro x hx
        exact hx
    · intro x hx
      rcases mergeMatchedAppendices_mem env.pyhash _ _ x hx with h1 | ⟨a, ha, he2⟩
      · rcases List.mem_map.mp h1 with ⟨a, ha, he2⟩
        right
        rw [← he2]
        exact ⟨rfl, rfl⟩
      · right
        rw [he2]
        exact ⟨rfl, rfl⟩
  · have hfb : matchedFalsy d.matched_appendices = false := Bool.eq_false_iff.mpr hf
    have hsome := hmp2 hfb
    rcases hMP with h | ⟨mps, hmp2', hk, hnd, hsubs⟩
    · exact absurd (hfb.symm.trans h) (by decide)
    · have hmpeq : mps = mp0 := by
        rw [hmp2'] at hsome
        exact Option.some.inj hsome
      subst hmpeq
      constructor
      · exact mergeMatchedAppendices_length env.pyhash _ _ hPk hPnd hk hnd hsubs
      · intro x hx
        rcases mergeMatchedAppendices_mem env.pyhash _ _ x hx with h1 | ⟨a, ha, he2⟩
        · exact Or.inl ⟨mps, hmp2', h1⟩
        · right
          rw [he2]
          exact ⟨rfl, rfl⟩

/-- Claim C3 (amended): when the best-match document's raw articles all carry
distinct non-empty normalized numbers (and its raw appendices distinct
non-empty normalized titles with no numbers), and the prior matched lists,
when present, use keys drawn from the raw lists, the CompletenessGuarantor
produces matched lists exactly as long as the raw lists, every added entry
carrying `similarity_score = 0.0` and `is_high_match = false`. The original
claim, with no key hypotheses, is refuted by
`completeness_length_counterexample`: a raw article with neither a number
nor text is skipped by the merge loop, leaving the matched list shorter. -/
theorem completeness_lengths_of_distinct_keys (env : Env) (d : Doc)
    (hAne : parseSub d.articles ≠ [])
    (hAk : ∀ a ∈ parseSub d.articles, artKey a ≠ "")
    (hAnd : ((parseSub d.articles).map artKey).Nodup)
    (hMA : matchedFalsy d.matched_articles = true ∨
      ∃ ms, d.matched_articles = some ms ∧ (∀ m ∈ ms, artKey m ≠ "") ∧
        (ms.map artKey).Nodup ∧ ∀ x ∈ ms.map artKey, x ∈ (parseSub d.articles).map artKey)
    (hPne : parseSub d.appendices ≠ [])
    (hPk : ∀ p ∈ parseSub d.appendices, appTitleKey p ≠ "" ∧ appNumKey p = "")
    (hPnd : ((parseSub d.appendices).map appTitleKey).Nodup)
    (hMP : matchedFalsy d.matched_appendices = true ∨
      ∃ mps, d.matched_appendices = some mps ∧
        (∀ m ∈ mps, appTitleKey m ≠ "" ∧ appNumKey m = "") ∧
        (mps.map appTitleKey).Nodup ∧
        ∀ x ∈ mps.map appTitleKey, x ∈ (parseSub d.appendices).map appTitleKey) :
    ((ensureCompleteDoc env d).matched_articles.getD []).length =
        (parseSub d.articles).length ∧
    ((ensureCompleteDoc env d).matched_appendices.getD []).length =
        (parseSub d.appendices).length ∧
    (∀ x ∈ (ensureCompleteDoc env d).matched_articles.getD [],
        (∃ ms, d.matched_articles = some ms ∧ x ∈ ms) ∨
        (x.similarity_score = some 0 ∧ x.is_high_match = some false)) ∧
    (∀ x ∈ (ensureCompleteDoc env d).matched_appendices.getD [],
        (∃ mps, d.matched_appendices = some mps ∧ x ∈ mps) ∨
        (x.similarity_score = some 0 ∧ x.is_high_match = some false)) := by
  obtain ⟨hl1, hm1⟩ := completeness_articles_side env d hAne hAk hAnd hMA
  obtain ⟨hl2, hm2⟩ := completeness_appendices_side env d hPne hPk hPnd hMP
  exact ⟨hl1, hl2, hm1, hm2⟩

/-- Refutation of claim C3 as stated: `dBadArticle` holds raw articles data
(two entries, one with neither number nor text), yet after the
CompletenessGuarantor its matched list has length 1, not 2 — the keyless
entry is silently skipped by the merge loop (retriever.py lines 1063-1064
`if not article_key: continue`). -/
theorem completeness_length_counterexample :
    parseSub dBadArticle.articles ≠ [] ∧
    ((ensureCompleteDoc envA dBadArticle).matched_articles.getD []).length ≠
      (parseSub dBadArticle.articles).length := by
  constructor
  · decide
  · decide

/-- Witness for `completeness_lengths_of_distinct_keys` on `dComplete`:
articles numbered 7 and 2, appendices titled alpha and beta, no prior
matches. -/
theorem completeness_lengths_witness :
    ((ensureCompleteDoc envA dComplete).matched_articles.getD []).length =
        (parseSub dComplete.articles).length ∧
    ((ensureCompleteDoc envA dComplete).matched_appendices.getD []).length =
        (parseSub dComplete.appendices).length ∧
    (∀ x ∈ (ensureCompleteDoc envA dComplete).matched_articles.getD [],
        (∃ ms, dComplete.matched_articles = some ms ∧ x ∈ ms) ∨
        (x.similarity_score = some 0 ∧ x.is_high_match = some false)) ∧
    (∀ x ∈ (ensureCompleteDoc envA dComplete).matched_appendices.getD [],
        (∃ mps, dComplete.matched_appendices = some mps ∧ x ∈ mps) ∨
        (x.similarity_score = some 0 ∧ x.is_high_match = some false)) :=
  completeness_lengths_of_distinct_keys envA dComplete
    (by decide) (by decide) (by decide) (Or.inl (by decide))
    (by decide) (by decide) (by decide) (Or.inl (by decide))

/-! ### Claim C1 — sign bounds for the emitted scores -/

/-- The pass-2 state invariant: every recorded enhanced score and every
precision entry is non-negative. -/
def GoodSt (st : Pass2State) : Prop :=
  (∀ e ∈ st.docMap, 0 ≤ e.2.2) ∧ (∀ p ∈ st.enhanced, 0 ≤ p.2) ∧ (∀ e ∈ st.precMap, 0 ≤ e.2)

theorem goodSt_init : GoodSt ⟨0, -1, none, [], [], []⟩ := by
  refine ⟨?_, ?_, ?_⟩ <;> intro x hx <;> exact absurd hx (List.not_mem_nil x)

theorem ite_nonneg {c : Prop} [Decidable c] {a b : ℚ} (ha : 0 ≤ a) (hb : 0 ≤ b) :
    0 ≤ if c then a else b := by
  split
  · exact ha
  · exact hb

theorem w_fst_nonneg {c1 c2 : Prop} [Decidable c1] [Decidable c2] :
    0 ≤ (if c1 then (((4 : ℚ)/5, (1 : ℚ)/5)) else
      if c2 then ((1 : ℚ)/5, (4 : ℚ)/5) else ((3 : ℚ)/5, (2 : ℚ)/5)).1 := by
  split
  · norm_num
  · split <;> norm_num

theorem w_snd_nonneg {c1 c2 : Prop} [Decidable c1] [Decidable c2] :
    0 ≤ (if c1 then (((4 : ℚ)/5, (1 : ℚ)/5)) else
      if c2 then ((1 : ℚ)/5, (4 : ℚ)/5) else ((3 : ℚ)/5, (2 : ℚ)/5)).2 := by
  split
  · norm_num
  · split <;> norm_num

theorem foldlMax_nonneg (xs : List ℚ) : ∀ a : ℚ, 0 ≤ a → 0 ≤ xs.foldl max a := by
  induction xs with
  | nil => intro a ha; exact ha
  | cons x xs ih =>
    intro a ha
    rw [List.foldl_cons]
    exact ih _ (le_trans ha (le_max_left a x))

theorem maxListD_nonneg (l : List ℚ) (hl : ∀ x ∈ l, 0 ≤ x) : 0 ≤ maxListD l 0 := by
  cases l with
  | nil => exact le_refl 0
  | cons x xs =>
    exact foldlMax_nonneg xs x (hl x (List.mem_cons_self x xs))

theorem adaptiveThreshold_nonneg (minScore : ℚ) (sqrtQ : ℚ → ℚ) (scores : List ℚ)
    (h : 0 ≤ minScore) : 0 ≤ adaptiveThreshold minScore sqrtQ scores := by
  unfold adaptiveThreshold
  split
  · exact h
  · exact le_trans h (le_max_left _ _)

theorem enh_nonneg (s subsec diversity prec bonus : ℚ)
    (hs : 0 ≤ s) (h1 : 0 ≤ subsec) (h2 : 0 ≤ diversity) (h3 : 0 ≤ prec) (h4 : 0 ≤ bonus) :
    0 ≤ (1/5) * s + (3/5) * subsec + (1/10) * diversity + (1/10) * prec + bonus := by
  have g1 : 0 ≤ (1/5 : ℚ) * s := mul_nonneg (by norm_num) hs
  have g2 : 0 ≤ (3/5 : ℚ) * subsec := mul_nonneg (by norm_num) h1
  have g3 : 0 ≤ (1/10 : ℚ) * diversity := mul_nonneg (by norm_num) h2
  have g4 : 0 ≤ (1/10 : ℚ) * prec := mul_nonneg (by norm_num) h3
  exact add_nonneg (add_nonneg (add_nonneg (add_nonneg g1 g2) g3) g4) h4

theorem calcMetadataMatchBonus_nonneg (d : Doc) (query : String) (keywords : List String) :
    0 ≤ calcMetadataMatchBonus d query keywords := by
  unfold calcMetadataMatchBonus
  dsimp only
  repeat' split
  all_goals norm_num

theorem upsertKP_mem {β : Type} (m : List (String × β)) (k : String) (v : β)
    (x : String × β) (hx : x ∈ upsertKP m k v) : x ∈ m ∨ x.2 = v := by
  unfold upsertKP at hx
  split at hx
  · rcases List.mem_map.mp hx with ⟨e, he, hxe⟩
    by_cases hek : e.1 = k
    · rw [if_pos hek] at hxe
      right
      rw [← hxe]
    · rw [if_neg hek] at hxe
      left
      rw [← hxe]
      exact he
  · rcases List.mem_append.mp hx with h | h
    · exact Or.inl h
    · right
      rw [List.mem_singleton.mp h]

theorem lookupKP_mem {β : Type} (m : List (String × β)) (k : String) (v : β)
    (h : lookupKP m k = some v) : ∃ e ∈ m, e.2 = v := by
  unfold lookupKP at h
  cases hf : m.find? (fun e => decide (e.1 = k)) with
  | none => rw [hf] at h; simp at h
  | some e =>
    rw [hf] at h
    exact ⟨e, List.mem_of_find?_eq_some hf, Option.some.inj h⟩

theorem lookup_getD_half_nonneg (pm : List (String × ℚ)) (k : String)
    (hpm : ∀ e ∈ pm, 0 ≤ e.2) : 0 ≤ (lookupKP pm k).getD (1/2) := by
  cases hl : lookupKP pm k with
  | none => norm_num
  | some v =>
    obtain ⟨e, hem, hev⟩ := lookupKP_mem pm k v hl
    rw [Option.getD_some, ← hev]
    exact hpm e hem

theorem ite_upsert_bound {c : Prop} [Decidable c] (pm : List (String × ℚ)) (k : String)
    (q : ℚ) (hpm : ∀ e ∈ pm, 0 ≤ e.2) (hq : 0 ≤ q) :
    ∀ e ∈ (if c then upsertKP pm k q else pm), 0 ≤ e.2 := by
  split
  · intro e he
    rcases upsertKP_mem pm k q e he with h | h
    · exact hpm e h
    · rw [h]
      exact hq
  · exact hpm

theorem updFirstContent_mem : ∀ (l : List (Doc × ℚ)) (c : String) (v : ℚ) (x : Doc × ℚ),
    x ∈ updFirstContent l c v → x ∈ l ∨ x.2 = v := by
  intro l c v
  induction l with
  | nil => intro x hx; exact Or.inl hx
  | cons p rest ih =>
    obtain ⟨d, sc⟩ := p
    intro x hx
    simp only [updFirstContent] at hx
    split at hx
    · rcases List.mem_cons.mp hx with h | h
      · right
        rw [h]
      · exact Or.inl (List.mem_cons_of_mem _ h)
    · rcases List.mem_cons.mp hx with h | h
      · left
        rw [h]
        exact List.mem_cons_self _ _
      · rcases ih x h with h2 | h2
        · exact Or.inl (List.mem_cons_of_mem _ h2)
        · exact Or.inr h2

theorem subscan_guard_scores (c1 : Prop) [Decidable c1] (th sv : ℚ) (st : SubScan)
    (m2 : List Sub) (hth : 0 ≤ th) (hst : ∀ x ∈ st.scores, 0 ≤ x) :
    ∀ x ∈ (if c1 then st else
      if th ≤ sv then (⟨st.scores ++ [sv], m2⟩ : SubScan) else st).scores, 0 ≤ x := by
  split
  · exact hst
  · split
    · rename_i h
      intro x hx
      rcases List.mem_append.mp hx with h1 | h1
      · exact hst x h1
      · rw [List.mem_singleton.mp h1]
        exact le_trans hth h
    · exact hst

theorem scanAFold_scores (env : Env) (query : String) (kws : List String)
    (tf : List (String × ℚ)) (adaptive artTh : ℚ) (hart : 0 ≤ artTh) :
    ∀ (subs : List Sub) (st : SubScan), (∀ x ∈ st.scores, 0 ≤ x) →
      ∀ x ∈ (subs.foldl (scanArticle env query kws tf adaptive artTh) st).scores, 0 ≤ x := by
  have step : ∀ (st : SubScan) (a : Sub), (∀ x ∈ st.scores, 0 ≤ x) →
      ∀ x ∈ (scanArticle env query kws tf adaptive artTh st a).scores, 0 ≤ x := by
    intro st a hst
    unfold scanArticle
    dsimp only
    exact subscan_guard_scores _ _ _ st _ hart hst
  intro subs
  induction subs with
  | nil => intro st hst; exact hst
  | cons a rest ih =>
    intro st hst
    rw [List.foldl_cons]
    exact ih _ (step st a hst)

theorem scanPFold_scores (env : Env) (query : String) (kws : List String)
    (tf : List (String × ℚ)) (adaptive appTh : ℚ) (happ : 0 ≤ appTh) :
    ∀ (subs : List Sub) (st : SubScan), (∀ x ∈ st.scores, 0 ≤ x) →
      ∀ x ∈ (subs.foldl (scanAppendix env query kws tf adaptive appTh) st).scores, 0 ≤ x := by
  have step : ∀ (st : SubScan) (p : Sub), (∀ x ∈ st.scores, 0 ≤ x) →
      ∀ x ∈ (scanAppendix env query kws tf adaptive appTh st p).scores, 0 ≤ x := by
    intro st p hst
    unfold scanAppendix
    dsimp only
    exact subscan_guard_scores _ _ _ st _ happ hst
  intro subs
  induction subs with
  | nil => intro st hst; exact hst
  | cons p rest ih =>
    intro st hst
    rw [List.foldl_cons]
    exact ih _ (step st p hst)

theorem pass2_update_good (st : Pass2State) (b : ℚ) (bi : Int) (bid : Option String)
    (docId : String) (ed : Doc) (enh : ℚ) (pm : List (String × ℚ))
    (hst : GoodSt st) (hpm : ∀ e ∈ pm, 0 ≤ e.2) (henh : 0 ≤ enh) :
    GoodSt ⟨b, bi, bid, upsertKP st.docMap docId (ed, enh), st.enhanced ++ [(ed, enh)], pm⟩ := by
  refine ⟨?_, ?_, hpm⟩
  · intro e he
    rcases upsertKP_mem st.docMap docId (ed, enh) e he with h | h
    · exact hst.1 e h
    · rw [h]
      exact henh
  · intro p hp
    rcases List.mem_append.mp hp with h | h
    · exact hst.2.1 p h
    · rw [List.mem_singleton.mp h]
      exact henh

theorem processDoc_bound (env : Env) (cfg : Config) (query : String) (kws : List String)
    (tf : List (String × ℚ)) (adaptive artTh appTh : ℚ)
    (st : Pass2State) (idx : Nat) (d : Doc) (s : ℚ)
    (hms : 0 ≤ cfg.min_score) (hart : 0 ≤ artTh) (happ : 0 ≤ appTh)
    (hst : GoodSt st) :
    GoodSt (processDoc env cfg query kws tf adaptive artTh appTh st idx d s) := by
  unfold processDoc
  split
  · exact hst
  · rename_i hg
    dsimp only
    split
    · exact ⟨hst.1, hst.2.1,
        ite_upsert_bound _ _ _ hst.2.2 (div_nonneg (Nat.cast_nonneg _) (Nat.cast_nonneg _))⟩
    · refine pass2_update_good st _ _ _ _ _ _ _ hst
        (ite_upsert_bound _ _ _ hst.2.2 (div_nonneg (Nat.cast_nonneg _) (Nat.cast_nonneg _)))
        ?_
      apply enh_nonneg
      · exact le_trans (mul_nonneg hms (by norm_num)) (not_lt.mp hg)
      · apply ite_nonneg
        · apply add_nonneg
          · exact mul_nonneg w_fst_nonneg (maxListD_nonneg _
              (scanAFold_scores env query kws tf adaptive artTh hart _ _
                (fun x hx => absurd hx (List.not_mem_nil x))))
          · exact mul_nonneg w_snd_nonneg (maxListD_nonneg _
              (scanPFold_scores env query kws tf adaptive appTh happ _ _
                (fun x hx => absurd hx (List.not_mem_nil x))))
        · exact le_trans (maxListD_nonneg _
            (scanAFold_scores env query kws tf adaptive artTh hart _ _
              (fun x hx => absurd hx (List.not_mem_nil x)))) (le_max_left _ _)
      · refine le_min (by norm_num) ?_
        apply add_nonneg
        · apply div_nonneg
          · apply add_nonneg
            · exact ite_nonneg (div_nonneg (Nat.cast_nonneg _) (Nat.cast_nonneg _)) le_rfl
            · exact ite_nonneg (div_nonneg (Nat.cast_nonneg _) (Nat.cast_nonneg _)) le_rfl
          · norm_num
        · exact mul_nonneg (by norm_num) (Nat.cast_nonneg _)
      · exact lookup_getD_half_nonneg _ _
          (ite_upsert_bound _ _ _ hst.2.2 (div_nonneg (Nat.cast_nonneg _) (Nat.cast_nonneg _)))
      · exact calcMetadataMatchBonus_nonneg _ _ _

theorem pass2Fold_bound (env : Env) (cfg : Config) (query : String) (kws : List String)
    (tf : List (String × ℚ)) (adaptive artTh appTh : ℚ)
    (hms : 0 ≤ cfg.min_score) (hart : 0 ≤ artTh) (happ : 0 ≤ appTh) :
    ∀ (rs : List (Doc × ℚ)) (a : Pass2State × Nat), GoodSt a.1 →
      GoodSt ((rs.foldl (fun (acc : Pass2State × Nat) p =>
        (processDoc env cfg query kws tf adaptive artTh appTh acc.1 acc.2 p.1 p.2, acc.2 + 1))
        a).1) := by
  intro rs
  induction rs with
  | nil => intro a ha; exact ha
  | cons p rest ih =>
    intro a ha
    rw [List.foldl_cons]
    exact ih _ (processDoc_bound env cfg query kws tf adaptive artTh appTh a.1 a.2 p.1 p.2
      hms hart happ ha)

theorem rerankStep_bound (env : Env) (bestContent : String) (bid : String)
    (acc : List (String × (Doc × ℚ)) × List (Doc × ℚ)) (entry : String × (Doc × ℚ))
    (h1 : ∀ e ∈ acc.1, 0 ≤ e.2.2) (h2 : ∀ p ∈ acc.2, 0 ≤ p.2) (hes : 0 ≤ entry.2.2) :
    (∀ e ∈ (rerankStep env bestContent bid acc entry).1, 0 ≤ e.2.2) ∧
    (∀ p ∈ (rerankStep env bestContent bid acc entry).2, 0 ≤ p.2) := by
  unfold rerankStep
  split
  · exact ⟨h1, h2⟩
  · dsimp only
    split
    · rename_i hds
      have hb : 0 ≤ entry.2.2 * (1 + (env.sim (takeChars 1000 bestContent)
          (takeChars 1000 entry.2.1.page_content) - 7/10) * (1/2)) := by
        apply mul_nonneg hes
        have hx : (0 : ℚ) ≤ env.sim (takeChars 1000 bestContent)
            (takeChars 1000 entry.2.1.page_content) - 7/10 := le_of_lt (sub_pos.mpr hds)
        exact add_nonneg zero_le_one (mul_nonneg hx (by norm_num))
      constructor
      · intro e he
        rcases upsertKP_mem _ _ _ e he with h | h
        · exact h1 e h
        · rw [h]
          exact hb
      · intro p hp
        rcases updFirstContent_mem _ _ _ p hp with h | h
        · exact h2 p h
        · rw [h]
          exact hb
    · exact ⟨h1, h2⟩

theorem rerankFold_bound (env : Env) (bestContent : String) (bid : String) :
    ∀ (entries : List (String × (Doc × ℚ)))
      (acc : List (String × (Doc × ℚ)) × List (Doc × ℚ)),
      (∀ e ∈ acc.1, 0 ≤ e.2.2) → (∀ p ∈ acc.2, 0 ≤ p.2) →
      (∀ e ∈ entries, 0 ≤ e.2.2) →
      (∀ e ∈ (entries.foldl (rerankStep env bestContent bid) acc).1, 0 ≤ e.2.2) ∧
      (∀ p ∈ (entries.foldl (rerankStep env bestContent bid) acc).2, 0 ≤ p.2) := by
  intro entries
  induction entries with
  | nil => intro acc h1 h2 _; exact ⟨h1, h2⟩
  | cons e rest ih =>
    intro acc h1 h2 hent
    rw [List.foldl_cons]
    have hstep := rerankStep_bound env bestContent bid acc e h1 h2
      (hent e (List.mem_cons_self e rest))
    exact ih _ hstep.1 hstep.2 (fun x hx => hent x (List.mem_cons_of_mem e hx))

theorem rerank_bounds (env : Env) (st : Pass2State)
    (h1 : ∀ e ∈ st.docMap, 0 ≤ e.2.2) (h2 : ∀ p ∈ st.enhanced, 0 ≤ p.2) :
    (∀ e ∈ (rerank env st).1, 0 ≤ e.2.2) ∧ (∀ p ∈ (rerank env st).2, 0 ≤ p.2) := by
  unfold rerank
  split
  · exact ⟨h1, h2⟩
  · split
    · exact ⟨h1, h2⟩
    · split
      · exact ⟨h1, h2⟩
      · exact rerankFold_bound env _ _ st.docMap (st.docMap, st.enhanced) h1 h2 h1

theorem pickFinal_bound (cfg : Config) (rrm : List (String × (Doc × ℚ)))
    (bid? : Option String) (filtered : List (Doc × ℚ))
    (hf : ∀ p ∈ filtered, 0 ≤ p.2) (hm : ∀ e ∈ rrm, 0 ≤ e.2.2) :
    ∀ p ∈ pickFinal cfg rrm bid? filtered, 0 ≤ p.2 := by
  intro p hp
  unfold pickFinal at hp
  cases bid? with
  | none =>
    dsimp only at hp
    exact hf p hp
  | some bid =>
    dsimp only at hp
    by_cases hc : (!(filtered.any fun p => p.1.has_best_match.getD false) && !strEmpty bid)
        = true
    · rw [if_pos hc] at hp
      cases hl : lookupKP rrm bid with
      | none =>
        rw [hl] at hp
        exact hf p hp
      | some be =>
        rw [hl] at hp
        dsimp only at hp
        obtain ⟨e, hem, hev⟩ := lookupKP_mem rrm bid be hl
        have hbe : 0 ≤ be.2 := by
          rw [← hev]
          exact hm e hem
        have hp2 := (sortDescBy_perm Prod.snd _).mem_iff.mp hp
        by_cases hk : cfg.default_k ≤ filtered.length
        · rw [if_pos hk] at hp2
          rcases List.mem_or_eq_of_mem_set hp2 with h | h
          · exact hf p h
          · rw [h]
            exact hbe
        · rw [if_neg hk] at hp2
          rcases List.mem_append.mp hp2 with h | h
          · exact hf p h
          · rw [List.mem_singleton.mp h]
            exact hbe
    · rw [if_neg hc] at hp
      exact hf p hp

/-- Claim C1 (amended): every score emitted by the hierarchical search is
non-negative whenever the configured floor `min_score` is non-negative. The
upper bound of the original claim is false — `search_scores_exceed_one`
exhibits a query whose single emitted score is 229/200 > 1, the enhanced
score `0.2·doc + 0.6·subsection + 0.1·diversity + 0.1·precision + bonus`
being clamped nowhere. -/
theorem search_scores_nonneg (env : Env) (cfg : Config) (query : String)
    (hms : 0 ≤ cfg.min_score) :
    ∀ s ∈ (searchArticlesAndAppendices env cfg query).2, 0 ≤ s := by
  intro s hs
  unfold searchArticlesAndAppendices at hs
  dsimp only at hs
  by_cases hre : (env.store query (cfg.max_k * 5) none).isEmpty = true
  · rw [if_pos hre] at hs
    simp at hs
  · rw [if_neg hre] at hs
    split at hs
    · simp at hs
    · dsimp only at hs
      rcases List.mem_map.mp hs with ⟨p, hp, hpe⟩
      subst hpe
      refine pickFinal_bound cfg _ _ _ ?_ ?_ p hp
      · intro q hq
        have h1 := List.mem_of_mem_take hq
        have h2 := List.mem_filter.mp h1
        exact le_trans hms (of_decide_eq_true h2.2)
      · have hth : 0 ≤ adaptiveThreshold cfg.min_score env.sqrtQ
            (pass1SubScores env cfg query (extractQueryKeywords query)
              (env.store query (cfg.max_k * 5) none)) :=
          adaptiveThreshold_nonneg _ _ _ hms
        have hstf := pass2Fold_bound env cfg query (extractQueryKeywords query)
          (calcTermFrequency env.logQ (extractQueryKeywords query)
            (env.store query (cfg.max_k * 5) none))
          (adaptiveThreshold cfg.min_score env.sqrtQ
            (pass1SubScores env cfg query (extractQueryKeywords query)
              (env.store query (cfg.max_k * 5) none)))
          (adaptiveThreshold cfg.min_score env.sqrtQ
            (pass1SubScores env cfg query (extractQueryKeywords query)
              (env.store query (cfg.max_k * 5) none)) * (19/20))
          (adaptiveThreshold cfg.min_score env.sqrtQ
            (pass1SubScores env cfg query (extractQueryKeywords query)
              (env.store query (cfg.max_k * 5) none)) * (9/10))
          hms (mul_nonneg hth (by norm_num)) (mul_nonneg hth (by norm_num))
          (env.store query (cfg.max_k * 5) none)
          (⟨0, -1, none, [], [], []⟩, 0) goodSt_init
        exact (rerank_bounds env _ hstf.1 hstf.2.1).1

set_option maxRecDepth 200000 in
unseal Rat.add Rat.mul Rat.sub Rat.inv in
/-- Refutation of the `score ≤ 1` half of claim C1: for the query
`"qqqq 7"` against the one-document store `envA`, the search emits the
score 229/200, which exceeds 1. -/
theorem search_scores_exceed_one :
    ∃ s ∈ (searchArticlesAndAppendices envA cfgDef "qqqq 7").2, ¬(0 ≤ s ∧ s ≤ 1) := by
  have hmem : (searchArticlesAndAppendices envA cfgDef "qqqq 7").2 = [229/200] := by decide
  refine ⟨229/200, ?_, ?_⟩
  · rw [hmem]
    exact List.mem_singleton.mpr rfl
  · intro hc
    have := hc.2
    norm_num at this

/-- Witness for `search_scores_nonneg` at the concrete store `envA` and the
default configuration. -/
theorem search_scores_nonneg_witness :
    (0 : ℚ) ≤ cfgDef.min_score ∧
    ∀ s ∈ (searchArticlesAndAppendices envA cfgDef "qqqq 7").2, 0 ≤ s :=
  ⟨by norm_num [cfgDef], search_scores_nonneg envA cfgDef "qqqq 7" (by norm_num [cfgDef])⟩

end MinistryRag
